import Mathlib

/-!
Shallow embedding of the agent-hooks event dispatch engine
(src/events/dispatcher.ts, src/utils/conditions.ts,
src/listeners/template-listener.ts, mcp listener, has_listeners tool).

JavaScript strings are modelled through their character lists (`String.data`);
this agrees with JS UTF-16 semantics on all BMP strings.  JS numbers are
modelled as `Rat` (exact where JS doubles are exact; every literal used in a
theorem below is an integer, where the two agree).
-/

namespace AgentHooks

/-- JS runtime values flowing through the engine (JSON data plus `undefined`,
which arises from failed property lookups).  `num` is `Rat`; see header note. -/
inductive Value where
  | null
  | undefined
  | bool (b : Bool)
  | num (q : Rat)
  | str (s : String)
  | arr (xs : List Value)
  | obj (fields : List (String × Value))
deriving Repr

/-! ### String helpers (JS string operations, char-list based) -/

def strOfChars (cs : List Char) : String := ⟨cs⟩

def strLen (s : String) : Nat := s.data.length

/-- JS `s.startsWith(p)`. -/
def jsStartsWith (s p : String) : Bool := p.data.isPrefixOf s.data

/-- JS `s.endsWith(p)`. -/
def jsEndsWith (s p : String) : Bool := p.data.isSuffixOf s.data

/-- JS `s.slice(0, -n)` for `n ≤ s.length` (drop the last `n` chars). -/
def jsDropRight (s : String) (n : Nat) : String :=
  ⟨s.data.take (s.data.length - n)⟩

/-- JS `s.slice(0, n)` / `s.substring(0, n)`. -/
def jsTake (s : String) (n : Nat) : String := ⟨s.data.take n⟩

/-- JS `s.substring(n)`. -/
def jsDrop (s : String) (n : Nat) : String := ⟨s.data.drop n⟩

/-- The whitespace class used by JS `trim` / `\s` (common members; the rare
Unicode space characters are not modelled, no configuration uses them). -/
def isWsChar (c : Char) : Bool :=
  c = ' ' || c = '\t' || c = '\n' || c = '\r' || c = '\x0b' || c = '\x0c'

/-- JS `s.trim()`. -/
def strTrim (s : String) : String :=
  ⟨((s.data.dropWhile isWsChar).reverse.dropWhile isWsChar).reverse⟩

/-- Split at the first `|`, as `expression.indexOf("|")` + two `substring`s. -/
def splitFirstPipe (s : String) : Option (String × String) :=
  match s.data.findIdx? (· = '|') with
  | some i => some (⟨s.data.take i⟩, ⟨s.data.drop (i + 1)⟩)
  | none => none

/-- JS `path.split(".")` (empty string yields `[""]`, adjacent dots yield `""`). -/
def splitDotsAux (cs : List Char) : List (List Char) :=
  match cs with
  | [] => [[]]
  | x :: rest =>
    let r := splitDotsAux rest
    if x = '.' then [] :: r
    else
      match r with
      | h :: t => (x :: h) :: t
      | [] => [[x]]

def splitDots (s : String) : List String := (splitDotsAux s.data).map strOfChars

/-! ### JS coercions used by the comparison operators -/

/-- Lexicographic (code-unit) comparison of JS strings. -/
def lexLt : List Char → List Char → Bool
  | [], [] => false
  | [], _ :: _ => true
  | _ :: _, [] => false
  | x :: xs, y :: ys => if x = y then lexLt xs ys else decide (x < y)

def digitsToNat (cs : List Char) : Nat :=
  cs.foldl (fun acc c => acc * 10 + (c.toNat - '0'.toNat)) 0

def isDigits (cs : List Char) : Bool := !cs.isEmpty && cs.all Char.isDigit

/-- `/^\d+\.\d+$/` shape: digits, one dot, digits. -/
def floatShape (cs : List Char) : Option (List Char × List Char) :=
  let intPart := cs.takeWhile Char.isDigit
  let rest := cs.drop intPart.length
  match rest with
  | '.' :: frac =>
    if !intPart.isEmpty && isDigits frac then some (intPart, frac) else none
  | _ => none

/-- Exact rational read of a decimal literal (`parseFloat` on a `\d+\.\d+`
string; exact where the JS double is, which covers every literal below). -/
def decimalToRat (intPart frac : List Char) : Rat :=
  (digitsToNat intPart : Rat) + (digitsToNat frac : Rat) / ((10 : Rat) ^ frac.length)

/-- JS `Number(string)` for the decimal forms (`""`→0, optional sign,
`d+`, `d+.d*`, `.d+`); hex/exponent/`Infinity` forms are not modelled
(no configuration in this engine compares such strings). `none` = NaN. -/
def jsStringToNumber (s : String) : Option Rat :=
  let cs := (strTrim s).data
  match cs with
  | [] => some 0
  | _ =>
    let (neg, body) :=
      match cs with
      | '-' :: r => (true, r)
      | '+' :: r => (false, r)
      | r => (false, r)
    let intPart := body.takeWhile Char.isDigit
    let rest := body.drop intPart.length
    let mag : Option Rat :=
      match rest with
      | [] => if intPart.isEmpty then none else some (digitsToNat intPart : Rat)
      | '.' :: frac =>
        if frac.all Char.isDigit && (!intPart.isEmpty || !frac.isEmpty) then
          some (decimalToRat intPart frac)
        else none
      | _ => none
    mag.map (fun q => if neg then -q else q)

def jsArrJoinComma (pieces : List String) : String :=
  String.intercalate "," pieces

mutual

/-- JS `String(v)` coercion.  Containers follow `Array.prototype.toString`
(comma join, `null`/`undefined` elements become empty) and plain objects
become `"[object Object]"`.  Non-integral numbers print as `num/den`, which
differs from JS shortest-double formatting; every coerced number in this
development is integral, where the two agree. -/
def jsToString : Value → String
  | .null => "null"
  | .undefined => "undefined"
  | .bool b => if b then "true" else "false"
  | .num q => if q.den = 1 then toString q.num else toString q
  | .str s => s
  | .arr xs => jsArrJoinComma (jsToStringElems xs)
  | .obj _ => "[object Object]"

/-- Array elements under `Array.prototype.toString`: `null`/`undefined`
render empty, everything else via `jsToString`. -/
def jsToStringElems : List Value → List String
  | [] => []
  | .null :: rest => "" :: jsToStringElems rest
  | .undefined :: rest => "" :: jsToStringElems rest
  | v :: rest => jsToString v :: jsToStringElems rest

end

/-- JS `ToNumber` as used by the relational operators (`none` = NaN).
Arrays coerce through their join string, objects through
`"[object Object]"` (NaN). -/
def toNumber : Value → Option Rat
  | .num q => some q
  | .bool b => some (if b then 1 else 0)
  | .null => some 0
  | .undefined => none
  | .str s => jsStringToNumber s
  | .arr xs => jsStringToNumber (jsToString (.arr xs))
  | .obj _ => none

/-- JS strict equality `===`.  Containers compare by reference; the two
operands of every comparison in this evaluator come from a data lookup and
a parsed literal, which are never the same reference, so container operands
always compare `false`. -/
def jsStrictEq : Value → Value → Bool
  | .num p, .num q => p == q
  | .str x, .str y => x == y
  | .bool x, .bool y => x == y
  | .null, .null => true
  | .undefined, .undefined => true
  | _, _ => false

def jsLess (a b : Value) : Bool :=
  match a, b with
  | .str x, .str y => lexLt x.data y.data
  | _, _ =>
    match toNumber a, toNumber b with
    | some p, some q => decide (p < q)
    | _, _ => false

def jsGreater (a b : Value) : Bool :=
  match a, b with
  | .str x, .str y => lexLt y.data x.data
  | _, _ =>
    match toNumber a, toNumber b with
    | some p, some q => decide (q < p)
    | _, _ => false

def jsGe (a b : Value) : Bool :=
  match a, b with
  | .str x, .str y => !lexLt x.data y.data
  | _, _ =>
    match toNumber a, toNumber b with
    | some p, some q => decide (q ≤ p)
    | _, _ => false

def jsLe (a b : Value) : Bool :=
  match a, b with
  | .str x, .str y => !lexLt y.data x.data
  | _, _ =>
    match toNumber a, toNumber b with
    | some p, some q => decide (p ≤ q)
    | _, _ => false

/-- `evaluateComparison` (conditions.ts:82-99). -/
def evaluateComparison (op : String) (l r : Value) : Bool :=
  if op = "==" then jsStrictEq l r
  else if op = "!=" then !jsStrictEq l r
  else if op = ">" then jsGreater l r
  else if op = "<" then jsLess l r
  else if op = ">=" then jsGe l r
  else if op = "<=" then jsLe l r
  else false

/-! ### Property lookup (`getNestedValue`, conditions.ts:101-113) -/

/-- A canonical JS array index string: digits, no superfluous leading zero. -/
def isCanonicalIndex (cs : List Char) : Bool :=
  isDigits cs && (cs.head? ≠ some '0' || cs.length = 1)

/-- One step of `current[key]`.  Objects look keys up, arrays and strings
answer `length` and canonical numeric indices; inherited built-in methods
are not modelled (no condition in this engine reads a method reference). -/
def indexValue (v : Value) (key : String) : Value :=
  match v with
  | .obj fields =>
    match fields.lookup key with
    | some w => w
    | none => .undefined
  | .arr xs =>
    if key = "length" then .num xs.length
    else if isCanonicalIndex key.data then
      match xs.get? (digitsToNat key.data) with
      | some w => w
      | none => .undefined
    else .undefined
  | .str s =>
    if key = "length" then .num (strLen s)
    else if isCanonicalIndex key.data then
      match s.data.get? (digitsToNat key.data) with
      | some c => .str ⟨[c]⟩
      | none => .undefined
    else .undefined
  | _ => .undefined

/-- `getNestedValue(obj, path)`: walk `path.split(".")`, returning
`undefined` as soon as the current value is `null`/`undefined`. -/
def getNestedValue (data : Value) (path : String) : Value :=
  (splitDots path).foldl
    (fun cur key =>
      match cur with
      | .null => .undefined
      | .undefined => .undefined
      | v => indexValue v key)
    data

/-! ### The comparison-expression shape (`/^(ident(\.ident)*)\s*(==|!=|>|<|>=|<=)\s*(.+)$/`) -/

def isIdentStart (c : Char) : Bool := c.isAlpha || c = '_'

def isIdentChar (c : Char) : Bool := isIdentStart c || c.isDigit

/-- `[a-zA-Z_][a-zA-Z0-9_]*`, returning the ident and the rest. -/
def parseIdent (cs : List Char) : Option (List Char × List Char) :=
  match cs with
  | [] => none
  | c :: rest =>
    if isIdentStart c then
      some (c :: rest.takeWhile isIdentChar, rest.dropWhile isIdentChar)
    else none

/-- Greedy `(?:\.ident)*`, with a structural fuel argument.  Every
iteration consumes at least two characters, so the fuel `cs.length` given
by `parseDotIdents` is never exhausted. -/
def parseDotIdentsF : Nat → List Char → List Char × List Char
  | _, [] => ([], [])
  | 0, cs => ([], cs)
  | fuel + 1, cs =>
    match cs with
    | '.' :: rest =>
      match parseIdent rest with
      | some (idt, rest2) =>
        let (more, rest3) := parseDotIdentsF fuel rest2
        ('.' :: (idt ++ more), rest3)
      | none => ([], cs)
    | _ => ([], cs)

def parseDotIdents (cs : List Char) : List Char × List Char :=
  parseDotIdentsF cs.length cs

/-- The field-path group: `ident(\.ident)*`. -/
def parseFieldPath (cs : List Char) : Option (List Char × List Char) :=
  match parseIdent cs with
  | none => none
  | some (i, rest) =>
    let (more, rest2) := parseDotIdents rest
    some (i ++ more, rest2)

/-- The operator alternation `(==|!=|>|<|>=|<=)` in its source order.  JS
alternation is first-match, so `>` and `<` shadow `>=` and `<=`: an input
`>= 2` matches operator `>` with remainder `= 2`. -/
def parseOp (cs : List Char) : Option (String × List Char) :=
  match cs with
  | '=' :: '=' :: r => some ("==", r)
  | '!' :: '=' :: r => some ("!=", r)
  | '>' :: r => some (">", r)
  | '<' :: r => some ("<", r)
  | _ => none

/-- The trailing `(.+)$` group (dot-all off): at least one character and no
newline.  (The JS `$` anchor also tolerates one trailing newline; condition
expressions never contain newlines and that corner is not modelled.) -/
def dotPlusEnd (cs : List Char) : Option (List Char) :=
  if cs.isEmpty then none
  else if cs.contains '\n' then none
  else some cs

/-- Match of the direct-comparison regexp against the path part of the
expression; yields `(fieldPath, operator, valueStr)`. -/
def parseComparison (cs : List Char) : Option (String × String × String) :=
  match parseFieldPath cs with
  | none => none
  | some (fp, rest) =>
    match parseOp (rest.dropWhile isWsChar) with
    | none => none
    | some (op, rest2) =>
      match dotPlusEnd (rest2.dropWhile isWsChar) with
      | none => none
      | some v => some (strOfChars fp, op, strOfChars v)

/-- Match of `/^length\s*(==|!=|>|<|>=|<=)\s*(.+)$/` against a pipe's right
side; yields `(operator, valueStr)`. -/
def parseLengthComparison (cs : List Char) : Option (String × String) :=
  if jsStartsWith (strOfChars cs) "length" then
    match parseOp ((cs.drop 6).dropWhile isWsChar) with
    | none => none
    | some (op, rest2) =>
      match dotPlusEnd (rest2.dropWhile isWsChar) with
      | none => none
      | some v => some (op, strOfChars v)
  else none

/-! ### Literal parsing -/

/-- `parseValue` (conditions.ts:70-80).  The quoted-string regexps
`/^".*"$/` are modelled without the trailing-newline tolerance of `$`
(see `dotPlusEnd`). -/
def parseValue (vs : String) : Value :=
  if vs = "true" then .bool true
  else if vs = "false" then .bool false
  else if vs = "null" then .null
  else if vs = "undefined" then .undefined
  else if isDigits vs.data then .num (digitsToNat vs.data)
  else
    match floatShape vs.data with
    | some (i, f) => .num (decimalToRat i f)
    | none =>
      if vs.data.length ≥ 2 && vs.data.head? = some '"' &&
          vs.data.getLast? = some '"' && !vs.data.contains '\n' then
        .str ⟨(vs.data.drop 1).dropLast⟩
      else if vs.data.length ≥ 2 && vs.data.head? = some '\'' &&
          vs.data.getLast? = some '\'' && !vs.data.contains '\n' then
        .str ⟨(vs.data.drop 1).dropLast⟩
      else .str vs

/-- The pipe branch's literal parse (conditions.ts:36-38): only the integer
and float forms; anything else stays the raw string. -/
def pipeParseValue (vs : String) : Value :=
  if isDigits vs.data then .num (digitsToNat vs.data)
  else
    match floatShape vs.data with
    | some (i, f) => .num (decimalToRat i f)
    | none => .str vs

/-- `length` applied to a piped value (conditions.ts:27,35): array element
count, string character count, otherwise `undefined`. -/
def lengthOf : Value → Value
  | .arr xs => .num xs.length
  | .str s => .num (strLen s)
  | _ => .undefined

/-! ### `simpleEvaluate` and `evaluateCondition` (conditions.ts) -/

/-- The `{ success, result, error? }` record returned by `simpleEvaluate`. -/
structure EvalResult where
  success : Bool
  result : Value
  error : Option String
deriving Repr

/-- The pipe-free part of `simpleEvaluate` (conditions.ts:47-67): a leading
dot starts a path, optionally a direct comparison; anything else is an
unsupported expression format. -/
def simpleEvaluateBase (expression : String) (data : Value) : EvalResult :=
  if jsStartsWith expression "." then
    let path := jsDrop expression 1
    match parseComparison path.data with
    | some (fieldPath, op, valueStr) =>
      ⟨true, .bool (evaluateComparison op (getNestedValue data fieldPath) (parseValue valueStr)), none⟩
    | none => ⟨true, getNestedValue data path, none⟩
  else ⟨false, .undefined, some "Unsupported expression format"⟩

/-- `simpleEvaluate` (conditions.ts:9-68).  The source recurses on the left
side of the first pipe; that side contains no pipe, so the recursive call is
exactly the pipe-free evaluator applied to the trimmed left side. -/
def simpleEvaluate (expression : String) (data : Value) : EvalResult :=
  let e := strTrim expression
  match splitFirstPipe e with
  | some (l, r) =>
    let leftResult := simpleEvaluateBase (strTrim l) data
    if leftResult.success = false then leftResult
    else
      let pipeValue := leftResult.result
      let rightExpr := strTrim r
      if rightExpr = "length" then ⟨true, lengthOf pipeValue, none⟩
      else
        match parseLengthComparison rightExpr.data with
        | some (op, valueStr) =>
          ⟨true, .bool (evaluateComparison op (lengthOf pipeValue) (pipeParseValue valueStr)), none⟩
        | none => ⟨false, .undefined, some ("Unsupported pipe operation: " ++ rightExpr)⟩
  | none => simpleEvaluateBase e data

/-- The truthiness test applied to a successful result
(conditions.ts:157): `result !== null && result !== false &&
result !== "" && result !== undefined` (note that `0` passes). -/
def isTruthyResult : Value → Bool
  | .null => false
  | .undefined => false
  | .bool b => b
  | .str s => !(s = "")
  | _ => true

/-- `evaluateCondition` (conditions.ts:115-166), on the built-in fallback
evaluator (the optional `jq-web` dependency is absent; per the design, the
built-in subset defines the supported behavior).  Unsupported expressions
degrade to `true`. -/
def evaluateCondition (expression : String) (data : Value) : Bool :=
  let evalResult := simpleEvaluate expression data
  if evalResult.success = false then true
  else isTruthyResult evalResult.result

/-! ### Template substitution (mcp-listener `substituteTemplate`; the
template listener applies the same two replaces to the file content,
template-listener.ts:79-84) -/

/-- Plain property read on a data record (`data[key]`). -/
def objGet (v : Value) (key : String) : Option Value :=
  match v with
  | .obj fields => fields.lookup key
  | _ => none

/-- `String(data[key] ?? "")`: absent, `null` and `undefined` references
become the empty string, everything else is string-coerced. -/
def dataSubstValue (data : Value) (key : String) : String :=
  match objGet data key with
  | none => ""
  | some .null => ""
  | some .undefined => ""
  | some w => jsToString w

/-- One global-replace pass of `/\$\{data\.([^}]+)\}/g` (capture: at least
one non-`}` character, looked up as a single literal key).  Fuel is
structural; each replacement consumes at least eight characters, so the
initial fuel `cs.length` never runs out. -/
def substDataScanF (data : Value) : Nat → List Char → List Char
  | _, [] => []
  | 0, cs => cs
  | fuel + 1, cs =>
    match cs with
    | '$' :: tl =>
      match tl with
      | '{' :: 'd' :: 'a' :: 't' :: 'a' :: '.' :: rest =>
        let key := rest.takeWhile (· ≠ '}')
        match rest.drop key.length with
        | '}' :: rest2 =>
          if key.isEmpty then '$' :: substDataScanF data fuel tl
          else (dataSubstValue data (strOfChars key)).data ++ substDataScanF data fuel rest2
        | _ => '$' :: substDataScanF data fuel tl
      | _ => '$' :: substDataScanF data fuel tl
    | c :: tl => c :: substDataScanF data fuel tl
    | [] => []

/-- One global-replace pass of `/\$\{env\.([^}]+)\}/g` with
`process.env[key] ?? ""`; the ambient environment is a parameter. -/
def substEnvScanF (env : String → Option String) : Nat → List Char → List Char
  | _, [] => []
  | 0, cs => cs
  | fuel + 1, cs =>
    match cs with
    | '$' :: tl =>
      match tl with
      | '{' :: 'e' :: 'n' :: 'v' :: '.' :: rest =>
        let key := rest.takeWhile (· ≠ '}')
        match rest.drop key.length with
        | '}' :: rest2 =>
          if key.isEmpty then '$' :: substEnvScanF env fuel tl
          else ((env (strOfChars key)).getD "").data ++ substEnvScanF env fuel rest2
        | _ => '$' :: substEnvScanF env fuel tl
      | _ => '$' :: substEnvScanF env fuel tl
    | c :: tl => c :: substEnvScanF env fuel tl
    | [] => []

def substData (data : Value) (s : String) : String :=
  ⟨substDataScanF data s.data.length s.data⟩

def substEnv (env : String → Option String) (s : String) : String :=
  ⟨substEnvScanF env s.data.length s.data⟩

/-- `substituteTemplate(template, data)`: the `${data.X}` pass followed by
the `${env.Y}` pass over its output. -/
def substituteTemplate (template : String) (data : Value)
    (env : String → Option String) : String :=
  substEnv env (substData data template)

/-! ### `JSON.stringify` and the payload size (dispatcher.ts:33-40) -/

def hexDigitChar (n : Nat) : Char :=
  if n < 10 then Char.ofNat ('0'.toNat + n) else Char.ofNat ('a'.toNat + n - 10)

/-- JSON string escaping as performed by `JSON.stringify`. -/
def jsonEscapeChar (c : Char) : List Char :=
  if c = '"' then ['\\', '"']
  else if c = '\\' then ['\\', '\\']
  else if c = '\x08' then ['\\', 'b']
  else if c = '\x0c' then ['\\', 'f']
  else if c = '\n' then ['\\', 'n']
  else if c = '\r' then ['\\', 'r']
  else if c = '\t' then ['\\', 't']
  else if c.toNat < 0x20 then
    ['\\', 'u', '0', '0', hexDigitChar (c.toNat / 16), hexDigitChar (c.toNat % 16)]
  else [c]

def jsonQuote (s : String) : String :=
  ⟨'"' :: (s.data.flatMap jsonEscapeChar ++ ['"'])⟩

def jsNumToString (q : Rat) : String :=
  if q.den = 1 then toString q.num else toString q

mutual

/-- `JSON.stringify` (`none` = the value is dropped: JS `undefined`). -/
def jsonStringify : Value → Option String
  | .null => some "null"
  | .undefined => none
  | .bool b => some (if b then "true" else "false")
  | .num q => some (jsNumToString q)
  | .str s => some (jsonQuote s)
  | .arr xs => some ("[" ++ String.intercalate "," (jsonStringifyElems xs) ++ "]")
  | .obj fields => some ("\x7b" ++ String.intercalate "," (jsonStringifyFields fields) ++ "\x7d")

/-- Array elements: dropped values serialize as `null`. -/
def jsonStringifyElems : List Value → List String
  | [] => []
  | v :: rest =>
    ((jsonStringify v).getD "null") :: jsonStringifyElems rest

/-- Object fields: dropped values omit the property. -/
def jsonStringifyFields : List (String × Value) → List String
  | [] => []
  | (k, v) :: rest =>
    match jsonStringify v with
    | some s => (jsonQuote k ++ ":" ++ s) :: jsonStringifyFields rest
    | none => jsonStringifyFields rest

end

def charUtf8Size (c : Char) : Nat :=
  if c.toNat < 0x80 then 1
  else if c.toNat < 0x800 then 2
  else if c.toNat < 0x10000 then 3
  else 4

/-- `Buffer.byteLength(s, "utf-8")`. -/
def utf8Length (s : String) : Nat := (s.data.map charUtf8Size).sum

/-- `Buffer.byteLength(JSON.stringify(data), "utf-8")`; the payload is a
data record, for which `JSON.stringify` never drops the whole value. -/
def payloadSizeBytes (d : Value) : Nat := utf8Length ((jsonStringify d).getD "")

def MAX_PAYLOAD_SIZE_BYTES : Nat := 10 * 1024

def DEFAULT_TIMEOUT_MS : Nat := 5000

/-! ### Configuration and response records (types.ts) -/

inductive ListenerStatus where
  | success
  | error
  | timeout
  | pending_execution
deriving Repr, DecidableEq

def statusToString : ListenerStatus → String
  | .success => "success"
  | .error => "error"
  | .timeout => "timeout"
  | .pending_execution => "pending_execution"

structure ListenerError where
  listener_id : String
  type : String
  message : String
  details : Option String := none
deriving Repr, DecidableEq

/-- `ListenerConfig`.  The `timeout` is in milliseconds; the type tag is the
raw configuration string so that unknown types are representable. -/
structure ListenerConfig where
  name : String
  type : String
  priority : Int
  timeout : Option Nat := none
  whenCond : Option String := none
  command : Option String := none
  path : Option String := none
  server : Option String := none
  tool : Option String := none
deriving Repr, DecidableEq

/-- Chain entry.  The snapshot's `types.ts` predates chains; the shape is
the one `dispatcher.ts` consumes (`chain` member list, `priority`,
`timeout`, `when`), matching the spec's chain entry
`{priority, timeout?, when?, members}`. -/
structure ChainConfig where
  priority : Int
  timeout : Option Nat := none
  whenCond : Option String := none
  chain : List ListenerConfig
deriving Repr, DecidableEq

/-- `EventEntry = ListenerConfig | ChainConfig` as a tagged union. -/
inductive EventEntry where
  | listener (l : ListenerConfig)
  | chain (c : ChainConfig)
deriving Repr, DecidableEq

def isChainConfig : EventEntry → Bool
  | .listener _ => false
  | .chain _ => true

def entryPriority : EventEntry → Int
  | .listener l => l.priority
  | .chain c => c.priority

def entryWhen : EventEntry → Option String
  | .listener l => l.whenCond
  | .chain c => c.whenCond

def entryTimeout : EventEntry → Option Nat
  | .listener l => l.timeout
  | .chain c => c.timeout

/-- The configuration slice the dispatcher reads: `events` as an
insertion-ordered pattern map plus `default_timeout`. -/
structure AgentHooksConfig where
  events : List (String × List EventEntry)
  default_timeout : Option Nat := none
deriving Repr, DecidableEq

structure ListenerResponse where
  listener_id : String
  name : String
  type : String
  priority : Int
  status : ListenerStatus
  result : Value
  duration_ms : Nat
  error : Option ListenerError := none
deriving Repr

structure EmitResponse where
  event : String
  invocation_id : String
  executed_at : Nat
  listeners_executed : Nat
  responses : List ListenerResponse
  errors : List ListenerError
  duration_ms : Nat
  timed_out : Bool
deriving Repr

structure EmitAsyncResponse where
  event : String
  mode : String
  invocation_id : String
  status : String
  listeners_registered : Nat
  message : String
deriving Repr, DecidableEq

/-! ### Matcher (dispatcher.ts:315-325, `matchesEvent`) -/

def matchesEvent (pattern event : String) : Bool :=
  if pattern = event then true
  else if jsEndsWith pattern ".*" then
    jsStartsWith event (jsDropRight pattern 2 ++ ".")
  else false

/-! ### Condition-filtered entry lookup (dispatcher.ts:246-275, `findEntries`) -/

/-- One pattern's contribution: entries whose `when` is falsy (absent or
empty) pass unconditionally, others pass iff `evaluateCondition` holds on
`data ?? {}`. -/
def entryPasses (data : Option Value) (e : EventEntry) : Bool :=
  match entryWhen e with
  | none => true
  | some w => if w = "" then true else evaluateCondition w (data.getD (.obj []))

/-- The matched, condition-filtered entries in declaration order (the loop
of `findEntries` before the final sort). -/
def collectEntries (event : String) (data : Option Value)
    (config : AgentHooksConfig) : List EventEntry :=
  config.events.foldl
    (fun acc pe =>
      if matchesEvent pe.1 event then acc ++ pe.2.filter (entryPasses data) else acc)
    []

/-- Stable insertion placing `x` before the first element of strictly larger
priority; `Array.prototype.sort` with comparator `a.priority - b.priority`
is a stable ascending sort (ES2019). -/
def insertByPriority (x : EventEntry) : List EventEntry → List EventEntry
  | [] => [x]
  | y :: ys =>
    if entryPriority y < entryPriority x then y :: insertByPriority x ys
    else x :: y :: ys

def sortByPriority : List EventEntry → List EventEntry
  | [] => []
  | x :: xs => insertByPriority x (sortByPriority xs)

def findEntries (event : String) (data : Option Value)
    (config : AgentHooksConfig) : List EventEntry :=
  sortByPriority (collectEntries event data config)

/-- `findAllEntriesForEvent` (dispatcher.ts:282-297): ignores `when`. -/
def findAllEntriesForEvent (event : String) (config : AgentHooksConfig) :
    List EventEntry :=
  sortByPriority
    (config.events.foldl
      (fun acc pe => if matchesEvent pe.1 event then acc ++ pe.2 else acc) [])

/-! ### Listener execution (dispatcher.ts:327-345 plus the three executors)

The three executors are abstracted into an environment: each invocation
yields either the status/result/duration/error core of a `ListenerResponse`
or a thrown exception, together with the wall-clock time the invocation
consumed.  All three real executors fill the identity fields
(`listener_id`, `name`, `type`, `priority`) from the listener definition;
that part is kept concrete in `mkResponse`. -/

structure ExecCore where
  status : ListenerStatus
  result : Value
  duration_ms : Nat
  error : Option ListenerError := none
deriving Repr

inductive ExecOutcome where
  | ok (core : ExecCore)
  | threw (msg : String)
deriving Repr

/-- The executor environment: `(listener, event, invocation_id, data,
timeout_ms, now) ↦ (outcome, elapsed wall-clock ms)`. -/
structure ExecEnv where
  run : ListenerConfig → String → String → Value → Nat → Nat → ExecOutcome × Nat

def mkResponse (l : ListenerConfig) (core : ExecCore) : ListenerResponse :=
  { listener_id := l.name, name := l.name, type := l.type, priority := l.priority,
    status := core.status, result := core.result,
    duration_ms := core.duration_ms, error := core.error }

/-- `executeListener` (dispatcher.ts:327-345): dispatch on the type tag; an
unknown listener type throws `Unknown listener type: ...` (modelled on the
`Except` error side, as every thrown executor exception is). -/
def executeListener (env : ExecEnv) (l : ListenerConfig) (event invId : String)
    (data : Value) (timeout now : Nat) : Except String ListenerResponse × Nat :=
  if l.type = "shell" ∨ l.type = "template" ∨ l.type = "mcp" then
    match env.run l event invId data timeout now with
    | (.ok core, dt) => (.ok (mkResponse l core), dt)
    | (.threw msg, dt) => (.error msg, dt)
  else (.error ("Unknown listener type: " ++ l.type), 0)

/-- The synthetic error response built in the two `catch` blocks
(dispatcher.ts:99-115 and 179-195). -/
def synthResponse (l : ListenerConfig) (err : ListenerError) : ListenerResponse :=
  { listener_id := l.name, name := l.name, type := l.type, priority := l.priority,
    status := .error, result := .null, duration_ms := 0, error := some err }

/-- Errors contributed by a completed response: only `error`/`timeout`
statuses contribute, and only when the response carries an error record. -/
def errorsOf (r : ListenerResponse) : List ListenerError :=
  if r.status = .error ∨ r.status = .timeout then
    match r.error with
    | some e => [e]
    | none => []
  else []

/-! ### Chain runner (dispatcher.ts:136-202, `executeChain`) -/

def errorToValue (e : ListenerError) : Value :=
  .obj ([("listener_id", .str e.listener_id), ("type", .str e.type),
         ("message", .str e.message)] ++
        (match e.details with
         | some d => [("details", Value.str d)]
         | none => []))

def responseToValue (r : ListenerResponse) : Value :=
  .obj ([("listener_id", .str r.listener_id), ("name", .str r.name),
         ("type", .str r.type), ("priority", .num r.priority),
         ("status", .str (statusToString r.status)), ("result", r.result),
         ("duration_ms", .num r.duration_ms)] ++
        (match r.error with
         | some e => [("error", errorToValue e)]
         | none => []))

/-- `{...data, k: v}`: keys keep their original position, a fresh key is
appended.  Event data is always a record; the default arm is unreachable. -/
def objSpreadSet (data : Value) (key : String) (v : Value) : Value :=
  match data with
  | .obj fields =>
    if fields.any (fun kv => kv.1 = key) then
      .obj (fields.map fun kv => if kv.1 = key then (key, v) else kv)
    else .obj (fields ++ [(key, v)])
  | _ => .obj [(key, v)]

/-- `{...data, _chain_results: [...chainResults]}` (dispatcher.ts:160-163). -/
def enrichWithChainResults (data : Value) (chainResults : List ListenerResponse) : Value :=
  objSpreadSet data "_chain_results" (.arr (chainResults.map responseToValue))

structure RunAcc where
  responses : List ListenerResponse
  errors : List ListenerError
  timedOut : Bool
  now : Nat
deriving Repr

/-- The member loop of `executeChain`.  `chainStart` is the chain's local
clock origin; `chainResults` accumulates prior members' responses for
enrichment.  Fail-fast: an `error`/`timeout` status or a throw stops the
loop with `timedOut = false`; only the local elapsed-time check sets
`timedOut = true`. -/
def executeChainGo (env : ExecEnv) (members : List ListenerConfig)
    (event invId : String) (data : Value) (chainStart timeout : Nat)
    (chainResults : List ListenerResponse) (now : Nat) : RunAcc :=
  match members with
  | [] => ⟨[], [], false, now⟩
  | m :: rest =>
    if now - chainStart ≥ timeout then ⟨[], [], true, now⟩
    else
      let memberTimeout := min (m.timeout.getD timeout) (timeout - (now - chainStart))
      let enriched := enrichWithChainResults data chainResults
      match executeListener env m event invId enriched memberTimeout now with
      | (.ok r, dt) =>
        if r.status = .error ∨ r.status = .timeout then
          ⟨[r], errorsOf r, false, now + dt⟩
        else
          let acc := executeChainGo env rest event invId data chainStart timeout
            (chainResults ++ [r]) (now + dt)
          ⟨r :: acc.responses, acc.errors, acc.timedOut, acc.now⟩
      | (.error msg, dt) =>
        let err : ListenerError := ⟨m.name, "chain_execution_error", msg, none⟩
        ⟨[synthResponse m err], [err], false, now + dt⟩

/-- `executeChain` (dispatcher.ts:136-202): local clock starts on entry. -/
def executeChain (env : ExecEnv) (c : ChainConfig) (event invId : String)
    (data : Value) (timeout now : Nat) : RunAcc :=
  executeChainGo env c.chain event invId data now timeout [] now

/-! ### Dispatch loop (dispatcher.ts:66-118) -/

/-- The entry loop of `dispatch`: before each entry the elapsed global time
is checked; failures of one entry never break the loop, only the elapsed
check or a chain whose local clock expired do. -/
def dispatchGo (env : ExecEnv) (entries : List EventEntry) (event invId : String)
    (data : Value) (startTime effTimeout : Nat) (now : Nat) : RunAcc :=
  match entries with
  | [] => ⟨[], [], false, now⟩
  | e :: rest =>
    if now - startTime ≥ effTimeout then ⟨[], [], true, now⟩
    else
      let remaining := effTimeout - (now - startTime)
      match e with
      | .chain c =>
        let chainTimeout := min (c.timeout.getD effTimeout) remaining
        let acc := executeChain env c event invId data chainTimeout now
        if acc.timedOut then ⟨acc.responses, acc.errors, true, acc.now⟩
        else
          let acc2 := dispatchGo env rest event invId data startTime effTimeout acc.now
          ⟨acc.responses ++ acc2.responses, acc.errors ++ acc2.errors,
           acc2.timedOut, acc2.now⟩
      | .listener l =>
        let listenerTimeout := min (l.timeout.getD effTimeout) remaining
        match executeListener env l event invId data listenerTimeout now with
        | (.ok r, dt) =>
          let acc2 := dispatchGo env rest event invId data startTime effTimeout (now + dt)
          ⟨r :: acc2.responses, errorsOf r ++ acc2.errors, acc2.timedOut, acc2.now⟩
        | (.error msg, dt) =>
          let err : ListenerError := ⟨l.name, "execution_error", msg, none⟩
          let acc2 := dispatchGo env rest event invId data startTime effTimeout (now + dt)
          ⟨synthResponse l err :: acc2.responses, err :: acc2.errors,
           acc2.timedOut, acc2.now⟩

/-- The payload-too-large message (dispatcher.ts:36-38);
`Math.round(bytes/1024)` is round-half-up on nonnegative values. -/
def payloadErrorMessage (payloadSize : Nat) : String :=
  "Event payload exceeds " ++ toString (MAX_PAYLOAD_SIZE_BYTES / 1024) ++
    "KB limit (" ++ toString ((payloadSize + 512) / 1024) ++ "KB)"

def mkInvocationId (uuid : String) : String := "evt-" ++ jsTake uuid 12

/-- The body of `dispatch` past the payload check: find matched entries,
short-circuit an empty match with a well-formed empty result, otherwise run
the entry loop.  The empty-result `executed_at`/`duration_ms` reflect that
no model time passes outside executors. -/
def dispatchRun (env : ExecEnv) (event : String) (data : Option Value)
    (config : AgentHooksConfig) (invocationId : String)
    (startTime effectiveTimeout : Nat) : EmitResponse :=
  let entries := findEntries event data config
  if entries.isEmpty then
    { event := event, invocation_id := invocationId, executed_at := startTime,
      listeners_executed := 0, responses := [], errors := [],
      duration_ms := 0, timed_out := false }
  else
    let acc := dispatchGo env entries event invocationId (data.getD (.obj []))
      startTime effectiveTimeout startTime
    { event := event, invocation_id := invocationId, executed_at := acc.now,
      listeners_executed := acc.responses.length, responses := acc.responses,
      errors := acc.errors, duration_ms := acc.now - startTime,
      timed_out := acc.timedOut }

/-- `dispatch` (dispatcher.ts:21-134).  `uuid` stands for the fresh
`uuidv4()` of this call; `startTime` is `Date.now()` at entry.  The thrown
payload error is the `Except.error` side. -/
def dispatch (env : ExecEnv) (event : String) (data : Option Value)
    (timeout : Option Nat) (config : AgentHooksConfig) (uuid : String)
    (startTime : Nat) : Except String EmitResponse :=
  let invocationId := mkInvocationId uuid
  let effectiveTimeout := timeout.getD (config.default_timeout.getD DEFAULT_TIMEOUT_MS)
  match data.map payloadSizeBytes with
  | some payloadSize =>
    if payloadSize > MAX_PAYLOAD_SIZE_BYTES then
      .error (payloadErrorMessage payloadSize)
    else
      .ok (dispatchRun env event data config invocationId startTime effectiveTimeout)
  | none =>
    .ok (dispatchRun env event data config invocationId startTime effectiveTimeout)

/-- The observable outcome of one `dispatchAsync` call: the enqueue record
handed to the caller plus the backgrounded dispatch (absent when no entry
matched; its own failure is swallowed by the `.catch`). -/
structure AsyncOutcome where
  enq : EmitAsyncResponse
  background : Option EmitResponse
deriving Repr

/-- The body of `dispatchAsync` past the payload check: count the matched
entries, return the enqueue record, and (when any matched) run the
background `dispatch` under its own fresh uuid, swallowing its error. -/
def asyncRun (env : ExecEnv) (event : String) (data : Option Value)
    (timeout : Option Nat) (config : AgentHooksConfig) (invocationId uuid₂ : String)
    (now : Nat) : AsyncOutcome :=
  let entries := findEntries event data config
  { enq := { event := event, mode := "async", invocation_id := invocationId,
             status := "enqueued", listeners_registered := entries.length,
             message := toString entries.length ++ " entry(ies) will execute in background" },
    background :=
      if entries.length > 0 then
        (dispatch env event data timeout config uuid₂ now).toOption
      else none }

/-- `dispatchAsync` (dispatcher.ts:204-240).  `uuid₁` is this call's fresh
`uuidv4()`; the backgrounded `dispatch` draws its own fresh `uuid₂`. -/
def dispatchAsync (env : ExecEnv) (event : String) (data : Option Value)
    (timeout : Option Nat) (config : AgentHooksConfig) (uuid₁ uuid₂ : String)
    (now : Nat) : Except String AsyncOutcome :=
  let invocationId := mkInvocationId uuid₁
  match data.map payloadSizeBytes with
  | some payloadSize =>
    if payloadSize > MAX_PAYLOAD_SIZE_BYTES then
      .error (payloadErrorMessage payloadSize)
    else .ok (asyncRun env event data timeout config invocationId uuid₂ now)
  | none => .ok (asyncRun env event data timeout config invocationId uuid₂ now)

/-! ### `has_listeners` tool handler (the `findListeners`-based handler;
`findListeners(event, undefined, config)` is the alias of
`findEntries`, so conditions are evaluated against `{}`) -/

structure HasListenersResponse where
  event : String
  has_listeners : Bool
  listener_count : Nat
  priorities : List Int
deriving Repr, DecidableEq

def insertIntAsc (x : Int) : List Int → List Int
  | [] => [x]
  | y :: ys => if y < x then y :: insertIntAsc x ys else x :: y :: ys

/-- `.sort((a, b) => a - b)` on the priorities (stable ascending). -/
def sortIntAsc : List Int → List Int
  | [] => []
  | x :: xs => insertIntAsc x (sortIntAsc xs)

def hasListenersHandler (event : String) (config : AgentHooksConfig) :
    HasListenersResponse :=
  let listeners := findEntries event none config
  { event := event, has_listeners := listeners.length > 0,
    listener_count := listeners.length,
    priorities := sortIntAsc (listeners.map entryPriority) }

/-! ### Auxiliary definitions used by concrete instantiations -/

/-- The name of a listener entry (chains are positional and carry none). -/
def entryName : EventEntry → String
  | .listener l => l.name
  | .chain _ => ""

def shellL (nm : String) (p : Int) : ListenerConfig :=
  { name := nm, type := "shell", priority := p }

def c10entry : EventEntry :=
  .listener { name := "w", type := "shell", priority := 1, whenCond := some ".flag" }

def c10config : AgentHooksConfig := { events := [("ev", [c10entry])] }

def c5env : ExecEnv :=
  ⟨fun l _ _ _ _ _ =>
    if l.name = "m2" then
      (.ok ⟨.error, .null, 1, some ⟨l.name, "execution_error", "boom", none⟩⟩, 1)
    else (.ok ⟨.success, .null, 1, none⟩, 1)⟩

def c5members : List ListenerConfig := [shellL "m1" 0, shellL "m2" 0, shellL "m3" 0]

def c5resp : ListenerResponse :=
  ((executeChainGo c5env c5members "ev" "id" (.obj []) 0 5000 [] 0).responses.get? 1).getD
    ⟨"", "", "", 0, .success, .null, 0, none⟩

def c1env : ExecEnv :=
  ⟨fun l _ _ _ _ _ =>
    if l.name = "f" then
      (.ok ⟨.error, .null, 1, some ⟨"f", "execution_error", "boom", none⟩⟩, 1)
    else (.ok ⟨.success, .null, 1, none⟩, 1)⟩

def c1resp : ListenerResponse :=
  mkResponse (shellL "f" 1) ⟨.error, .null, 1, some ⟨"f", "execution_error", "boom", none⟩⟩

def c2env : ExecEnv := ⟨fun _ _ _ _ _ _ => (.ok ⟨.success, .null, 1, none⟩, 1)⟩

def c2config : AgentHooksConfig :=
  { events := [("ev", [.listener (shellL "b" 2), .listener (shellL "a" 1)])] }

def c2res : EmitResponse :=
  match dispatch c2env "ev" none none c2config "u" 0 with
  | .ok r => r
  | .error _ => ⟨"", "", 0, 0, [], [], 0, false⟩

def c3d10 : Value := .obj [("k", .str ⟨List.replicate 10232 'x'⟩)]

def c3d11 : Value := .obj [("k", .str ⟨List.replicate 11256 'x'⟩)]

def c6config : AgentHooksConfig := { events := [("ev", [.listener (shellL "a" 1)])] }

def c6out : AsyncOutcome :=
  match dispatchAsync c2env "ev" none none c6config "aaaaaaaaaaaaaaaa" "bbbbbbbbbbbbbbbb" 0 with
  | .ok o => o
  | .error _ => ⟨⟨"", "", "", "", 0, ""⟩, none⟩

/-! ## Shared helper lemmas -/

theorem jsEndsWith_append (pre suf : String) : jsEndsWith (pre ++ suf) suf = true := by
  have : (pre ++ suf).data = pre.data ++ suf.data := rfl
  rw [jsEndsWith, this, List.isSuffixOf_iff_suffix]
  exact List.suffix_append _ _

theorem jsDropRight_append (pre suf : String) :
    jsDropRight (pre ++ suf) suf.data.length = pre := by
  have h1 : (pre ++ suf).data = pre.data ++ suf.data := rfl
  rw [jsDropRight, h1]
  have h2 : (pre.data ++ suf.data).length - suf.data.length = pre.data.length := by
    simp
  rw [h2, List.take_left]

theorem isTruthyResult_iff (v : Value) :
    isTruthyResult v = true ↔
      (v ≠ .null ∧ v ≠ .bool false ∧ v ≠ .str "" ∧ v ≠ .undefined) := by
  cases v <;> simp [isTruthyResult]

/-! ## Claim theorems -/

/-- C7: `matchesEvent` returns true exactly on an exact pattern match or on
a `prefix.*` pattern whose `prefix.` begins the event name (any depth below
the prefix, so `a.*` matches both `a.b` and `a.b.c`); a pattern not ending
in `.*` matches only by equality, so firing `x.y` against `a.*` does not
match. -/
theorem c7_wildcard_match :
    (∀ pre e : String, matchesEvent (pre ++ ".*") e =
        ((pre ++ ".*" == e) || jsStartsWith e (pre ++ "."))) ∧
    (∀ p e : String, jsEndsWith p ".*" = false → matchesEvent p e = (p == e)) ∧
    matchesEvent "a.*" "a.b" = true ∧ matchesEvent "a.*" "a.b.c" = true ∧
    matchesEvent "a.*" "x.y" = false := by
  refine ⟨?_, ?_, by decide, by decide, by decide⟩
  · intro pre e
    rw [matchesEvent]
    by_cases h : pre ++ ".*" = e
    · simp [h]
    · have h2 : jsDropRight (pre ++ ".*") 2 = pre := by
        have := jsDropRight_append pre ".*"
        simpa using this
      simp [h, jsEndsWith_append pre ".*", h2]
  · intro p e h
    rw [matchesEvent]
    by_cases he : p = e
    · simp [he]
    · simp [he, h]

/-- C7 witness: the non-wildcard clause applied at pattern `x.y`. -/
theorem c7_wildcard_match_witness :
    jsEndsWith "x.y" ".*" = false ∧ matchesEvent "x.y" "x.y" = ("x.y" == "x.y") :=
  ⟨by decide, c7_wildcard_match.2.1 "x.y" "x.y" (by decide)⟩

/-- C4: `evaluateCondition` is total and defaults to `true` on every
unsupported/malformed expression (in particular `not[[[valid` on any data);
a bare path evaluates to the truthiness of the resolved value, true exactly
when that value is not `null`, `false`, the empty string or absent, so
`.missing` on `{}` is `false`. -/
theorem c4_condition_defaults :
    (∀ e d, (simpleEvaluate e d).success = false → evaluateCondition e d = true) ∧
    (∀ d, evaluateCondition "not[[[valid" d = true) ∧
    evaluateCondition ".missing" (.obj []) = false ∧
    (∀ e d, splitFirstPipe (strTrim e) = none →
      jsStartsWith (strTrim e) "." = true →
      parseComparison (jsDrop (strTrim e) 1).data = none →
      (evaluateCondition e d = true ↔
        (getNestedValue d (jsDrop (strTrim e) 1) ≠ .null ∧
         getNestedValue d (jsDrop (strTrim e) 1) ≠ .bool false ∧
         getNestedValue d (jsDrop (strTrim e) 1) ≠ .str "" ∧
         getNestedValue d (jsDrop (strTrim e) 1) ≠ .undefined))) := by
  refine ⟨?_, ?_, by decide, ?_⟩
  · intro e d h
    rw [evaluateCondition]
    simp [h]
  · intro d
    rfl
  · intro e d h1 h2 h3
    rw [evaluateCondition, simpleEvaluate]
    simp only [h1]
    rw [simpleEvaluateBase]
    simp only [h2, if_true, h3]
    simp [← isTruthyResult_iff]

/-- C4 witness: the bare-path clause applied at `.missing` on `{}`. -/
theorem c4_condition_defaults_witness :
    splitFirstPipe (strTrim ".missing") = none ∧
    jsStartsWith (strTrim ".missing") "." = true ∧
    parseComparison (jsDrop (strTrim ".missing") 1).data = none ∧
    (evaluateCondition ".missing" (.obj []) = true ↔
      (getNestedValue (.obj []) (jsDrop (strTrim ".missing") 1) ≠ .null ∧
       getNestedValue (.obj []) (jsDrop (strTrim ".missing") 1) ≠ .bool false ∧
       getNestedValue (.obj []) (jsDrop (strTrim ".missing") 1) ≠ .str "" ∧
       getNestedValue (.obj []) (jsDrop (strTrim ".missing") 1) ≠ .undefined)) :=
  ⟨by decide, by decide, by decide,
    c4_condition_defaults.2.2.2 ".missing" (.obj []) (by decide) (by decide) (by decide)⟩

/-- C9 counterexample: `.n | length` with `n` resolving to the number `5`
(neither a string nor a sequence).  The claim predicts the default-true
fallback; the evaluator instead reports success with `length = undefined`,
and the condition evaluates to `false`. -/
theorem c9_counterexample :
    (simpleEvaluateBase (strTrim ".n") (.obj [("n", .num 5)])).result = .num 5 ∧
    evaluateCondition ".n | length" (.obj [("n", .num 5)]) = false := by
  constructor
  · rfl
  · decide

/-- C9 amended: in `<path-expr> | length`, `length` on a string is the
character count and on a sequence the element count; on every other
resolved type `length` evaluates to `undefined` under a successful result
(not the default-true fallback), so the bare pipe condition is `false`. -/
theorem c9_amended (e : String) (d : Value) (l r : String) (res : EvalResult) (v : Value)
    (h1 : splitFirstPipe (strTrim e) = some (l, r))
    (h2 : strTrim r = "length")
    (h3 : simpleEvaluateBase (strTrim l) d = res)
    (h4 : res.success = true) (h5 : res.result = v) :
    (∀ s, v = .str s → simpleEvaluate e d = ⟨true, .num (strLen s), none⟩) ∧
    (∀ xs, v = .arr xs → simpleEvaluate e d = ⟨true, .num xs.length, none⟩) ∧
    ((∀ s, v ≠ .str s) → (∀ xs, v ≠ .arr xs) →
      simpleEvaluate e d = ⟨true, .undefined, none⟩ ∧
      evaluateCondition e d = false) := by
  have hmain : simpleEvaluate e d = ⟨true, lengthOf v, none⟩ := by
    rw [simpleEvaluate]
    simp only [h1, h3, h4, h5, h2]
    simp
  refine ⟨?_, ?_, ?_⟩
  · intro s hs
    rw [hmain, hs]
    rfl
  · intro xs hxs
    rw [hmain, hxs]
    rfl
  · intro hs hxs
    have hlen : lengthOf v = .undefined := by
      cases v <;> first
        | rfl
        | exact absurd rfl (hs _)
        | exact absurd rfl (hxs _)
    rw [hmain, hlen]
    constructor
    · rfl
    · rw [evaluateCondition, hmain, hlen]
      rfl

/-- C9 amended witness: `.s | length` with `s = "abc"` yields `3`. -/
theorem c9_amended_witness :
    simpleEvaluate ".s | length" (.obj [("s", .str "abc")]) = ⟨true, .num 3, none⟩ := by
  have h := c9_amended ".s | length" (.obj [("s", .str "abc")]) ".s " " length"
    (simpleEvaluateBase (strTrim ".s ") (.obj [("s", .str "abc")])) (.str "abc")
    (by decide) (by decide) rfl (by decide) rfl
  have h2 := h.1 "abc" rfl
  exact h2

theorem takeWhile_key (l rest : List Char) (h : '}' ∉ l) :
    (l ++ '}' :: rest).takeWhile (· ≠ '}') = l := by
  induction l with
  | nil => simp
  | cons c cs ih =>
    simp only [List.mem_cons, not_or] at h
    have hc : ¬(c = '}') := fun hh => h.1 hh.symm
    simp only [List.cons_append, List.takeWhile_cons]
    simp only [hc, decide_False, Bool.not_false, decide_not, if_true]
    simpa using ih h.2

/-- The `${data.X}` replace on a single whole-string token with a
well-formed key substitutes `String(data[key] ?? "")` — `key` being the
token's inner text used as one literal property name. -/
theorem substData_token (d : Value) (key : String)
    (hk1 : key.data ≠ []) (hk2 : '}' ∉ key.data) :
    substData d ("$\x7bdata." ++ key ++ "\x7d") = dataSubstValue d key := by
  have hdata : ("$\x7bdata." ++ key ++ "\x7d").data =
      '$' :: '{' :: 'd' :: 'a' :: 't' :: 'a' :: '.' :: (key.data ++ ['}']) := by
    have h0 : ("$\x7bdata." ++ key ++ "\x7d").data = "$\x7bdata.".data ++ key.data ++ "\x7d".data := rfl
    rw [h0, List.append_assoc]
    rfl
  have hne : key.data.isEmpty = false := by
    cases hkd : key.data with
    | nil => exact absurd hkd hk1
    | cons a l => rfl
  rw [substData, hdata]
  simp only [List.length_cons, substDataScanF]
  rw [takeWhile_key key.data [] hk2, List.drop_left]
  simp only [hne, substDataScanF, Bool.false_eq_true, if_false, List.append_nil]
  rfl

/-- C8 counterexample: a `${data.a.b}` token against the nested data
`{a: {b: "x"}}` substitutes the empty string, not `"x"` — the dotted path
is not resolved as a nested lookup. -/
theorem c8_counterexample :
    substituteTemplate "${data.a.b}" (.obj [("a", .obj [("b", .str "x")])]) (fun _ => none) = "" ∧
    substituteTemplate "${data.a.b}" (.obj [("a", .obj [("b", .str "x")])]) (fun _ => none) ≠ "x" :=
  ⟨rfl, by decide⟩

/-- C8 amended: a `${data.<key>}` token is substituted by looking the whole
inner text up as a single literal key on the top-level data object:
a present string value substitutes itself (then flows through the `env`
pass), while an absent or `null` reference substitutes the empty string. -/
theorem c8_amended (d : Value) (env : String → Option String) (key : String)
    (hk1 : key.data ≠ []) (hk2 : '}' ∉ key.data) :
    (∀ v, objGet d key = some (.str v) →
        substituteTemplate ("$\x7bdata." ++ key ++ "\x7d") d env = substEnv env v) ∧
    (objGet d key = none → substituteTemplate ("$\x7bdata." ++ key ++ "\x7d") d env = "") ∧
    (objGet d key = some .null → substituteTemplate ("$\x7bdata." ++ key ++ "\x7d") d env = "") := by
  have hbase := substData_token d key hk1 hk2
  refine ⟨?_, ?_, ?_⟩
  · intro v hv
    rw [substituteTemplate, hbase]
    simp only [dataSubstValue, hv]
    rfl
  · intro hv
    rw [substituteTemplate, hbase]
    simp only [dataSubstValue, hv]
    rfl
  · intro hv
    rw [substituteTemplate, hbase]
    simp only [dataSubstValue, hv]
    rfl

/-- C8 amended witness: the flat key `a.b` present on the top-level data
does substitute, yielding `"x"`. -/
theorem c8_amended_witness :
    substituteTemplate "${data.a.b}" (.obj [("a.b", .str "x")]) (fun _ => none) =
      substEnv (fun _ => none) "x" ∧
    substEnv (fun _ => none) "x" = "x" :=
  ⟨(c8_amended (.obj [("a.b", .str "x")]) (fun _ => none) "a.b"
      (by decide) (by decide)).1 "x" rfl, rfl⟩

theorem mem_insertByPriority {x y : EventEntry} {l : List EventEntry} :
    x ∈ insertByPriority y l ↔ x = y ∨ x ∈ l := by
  induction l with
  | nil => simp [insertByPriority]
  | cons z zs ih =>
    rw [insertByPriority]
    split
    · rw [List.mem_cons, List.mem_cons, ih]
      tauto
    · rw [List.mem_cons, List.mem_cons]

theorem mem_sortByPriority {x : EventEntry} {l : List EventEntry} :
    x ∈ sortByPriority l ↔ x ∈ l := by
  induction l with
  | nil => simp [sortByPriority]
  | cons y ys ih =>
    rw [sortByPriority, mem_insertByPriority]
    simp [ih]

theorem entryPasses_of_mem_collect {event : String} {data : Option Value}
    {config : AgentHooksConfig} {x : EventEntry}
    (h : x ∈ collectEntries event data config) : entryPasses data x = true := by
  rw [collectEntries] at h
  suffices hgen : ∀ (L : List (String × List EventEntry)) (acc : List EventEntry),
      (∀ y ∈ acc, entryPasses data y = true) →
      x ∈ L.foldl (fun acc pe =>
        if matchesEvent pe.1 event then acc ++ pe.2.filter (entryPasses data) else acc) acc →
      entryPasses data x = true by
    exact hgen config.events [] (by simp) h
  intro L
  induction L with
  | nil =>
    intro acc hacc hx
    exact hacc x hx
  | cons pe rest ih =>
    intro acc hacc hx
    simp only [List.foldl_cons] at hx
    refine ih _ ?_ hx
    intro y hy
    split at hy
    · rcases List.mem_append.mp hy with h1 | h2
      · exact hacc y h1
      · exact (List.mem_filter.mp h2).2
    · exact hacc y hy

/-- C10: `has_listeners` queries with no event data, so its handler (the
`findListeners`-based one) filters conditions against `{}`: a registered
entry matching the event whose `when` evaluates falsy on `{}` is excluded
from the matched list, and therefore from `listener_count`, `priorities`
and the `has_listeners` flag, which are all derived from that list. -/
theorem c10_has_listeners_filters_on_empty_data
    (event : String) (config : AgentHooksConfig) (pat : String)
    (entries : List EventEntry) (e : EventEntry) (w : String)
    (_hreg : (pat, entries) ∈ config.events) (_hin : e ∈ entries)
    (_hmatch : matchesEvent pat event = true)
    (hw : entryWhen e = some w)
    (hfalse : evaluateCondition w (.obj []) = false) :
    e ∉ findEntries event none config ∧
    (hasListenersHandler event config).listener_count = (findEntries event none config).length ∧
    (hasListenersHandler event config).priorities =
      sortIntAsc ((findEntries event none config).map entryPriority) ∧
    (hasListenersHandler event config).has_listeners =
      decide ((findEntries event none config).length > 0) := by
  have hpass : entryPasses none e = false := by
    by_cases hwe : w = ""
    · subst hwe
      have htrue : evaluateCondition "" (.obj []) = true := by decide
      rw [htrue] at hfalse
      exact absurd hfalse (by simp)
    · rw [entryPasses, hw]
      simp [hwe, hfalse]
  refine ⟨?_, rfl, rfl, rfl⟩
  intro hmem
  have := entryPasses_of_mem_collect (mem_sortByPriority.mp hmem)
  rw [hpass] at this
  exact absurd this (by simp)

/-- C10 witness: one registered entry under `ev` with `when: ".flag"`,
which is falsy on `{}` — the entry is excluded from the handler's view. -/
theorem c10_has_listeners_filters_on_empty_data_witness :
    c10entry ∉ findEntries "ev" none c10config ∧
    (hasListenersHandler "ev" c10config).listener_count = (findEntries "ev" none c10config).length ∧
    (hasListenersHandler "ev" c10config).priorities =
      sortIntAsc ((findEntries "ev" none c10config).map entryPriority) ∧
    (hasListenersHandler "ev" c10config).has_listeners =
      decide ((findEntries "ev" none c10config).length > 0) :=
  c10_has_listeners_filters_on_empty_data "ev" c10config "ev" [c10entry] c10entry ".flag"
    (by decide) (by decide) (by decide) (by decide) (by decide)


/-! ## Chain-runner and dispatch-loop step lemmas -/

section StepLemmas

variable (env : ExecEnv) (m : ListenerConfig) (rest : List ListenerConfig)
variable (event invId : String) (data : Value) (cs t : Nat)
variable (cr : List ListenerResponse) (now : Nat)

theorem executeChainGo_nil :
    executeChainGo env [] event invId data cs t cr now = ⟨[], [], false, now⟩ := rfl

theorem executeChainGo_cons_eq :
    executeChainGo env (m :: rest) event invId data cs t cr now =
      if now - cs ≥ t then ⟨[], [], true, now⟩
      else
        match executeListener env m event invId (enrichWithChainResults data cr)
            (min (m.timeout.getD t) (t - (now - cs))) now with
        | (.ok r, dt) =>
          if r.status = .error ∨ r.status = .timeout then ⟨[r], errorsOf r, false, now + dt⟩
          else
            ⟨r :: (executeChainGo env rest event invId data cs t (cr ++ [r]) (now + dt)).responses,
             (executeChainGo env rest event invId data cs t (cr ++ [r]) (now + dt)).errors,
             (executeChainGo env rest event invId data cs t (cr ++ [r]) (now + dt)).timedOut,
             (executeChainGo env rest event invId data cs t (cr ++ [r]) (now + dt)).now⟩
        | (.error msg, dt) =>
          ⟨[synthResponse m ⟨m.name, "chain_execution_error", msg, none⟩],
           [⟨m.name, "chain_execution_error", msg, none⟩], false, now + dt⟩ := rfl

theorem executeChainGo_cons_to (h : now - cs ≥ t) :
    executeChainGo env (m :: rest) event invId data cs t cr now = ⟨[], [], true, now⟩ := by
  rw [executeChainGo_cons_eq]
  exact if_pos h

theorem executeChainGo_cons_fail (h : ¬ (now - cs ≥ t)) (r : ListenerResponse) (dt : Nat)
    (hres : executeListener env m event invId (enrichWithChainResults data cr)
      (min (m.timeout.getD t) (t - (now - cs))) now = (.ok r, dt))
    (hs : r.status = .error ∨ r.status = .timeout) :
    executeChainGo env (m :: rest) event invId data cs t cr now =
      ⟨[r], errorsOf r, false, now + dt⟩ := by
  rw [executeChainGo_cons_eq, if_neg h, hres]
  exact if_pos hs

theorem executeChainGo_cons_pass (h : ¬ (now - cs ≥ t)) (r : ListenerResponse) (dt : Nat)
    (hres : executeListener env m event invId (enrichWithChainResults data cr)
      (min (m.timeout.getD t) (t - (now - cs))) now = (.ok r, dt))
    (hs : ¬ (r.status = .error ∨ r.status = .timeout)) :
    executeChainGo env (m :: rest) event invId data cs t cr now =
      ⟨r :: (executeChainGo env rest event invId data cs t (cr ++ [r]) (now + dt)).responses,
       (executeChainGo env rest event invId data cs t (cr ++ [r]) (now + dt)).errors,
       (executeChainGo env rest event invId data cs t (cr ++ [r]) (now + dt)).timedOut,
       (executeChainGo env rest event invId data cs t (cr ++ [r]) (now + dt)).now⟩ := by
  rw [executeChainGo_cons_eq, if_neg h, hres]
  exact if_neg hs

theorem executeChainGo_cons_threw (h : ¬ (now - cs ≥ t)) (msg : String) (dt : Nat)
    (hres : executeListener env m event invId (enrichWithChainResults data cr)
      (min (m.timeout.getD t) (t - (now - cs))) now = (.error msg, dt)) :
    executeChainGo env (m :: rest) event invId data cs t cr now =
      ⟨[synthResponse m ⟨m.name, "chain_execution_error", msg, none⟩],
       [⟨m.name, "chain_execution_error", msg, none⟩], false, now + dt⟩ := by
  rw [executeChainGo_cons_eq, if_neg h, hres]

end StepLemmas

theorem dispatchGo_nil (env : ExecEnv) (event invId : String) (data : Value)
    (start eff now : Nat) :
    dispatchGo env [] event invId data start eff now = ⟨[], [], false, now⟩ := rfl

theorem dispatchGo_cons_eq (env : ExecEnv) (e : EventEntry) (rest : List EventEntry)
    (event invId : String) (data : Value) (start eff now : Nat) :
    dispatchGo env (e :: rest) event invId data start eff now =
      if now - start ≥ eff then ⟨[], [], true, now⟩
      else
        match e with
        | .chain c =>
          if (executeChain env c event invId data
              (min (c.timeout.getD eff) (eff - (now - start))) now).timedOut then
            ⟨(executeChain env c event invId data
                (min (c.timeout.getD eff) (eff - (now - start))) now).responses,
             (executeChain env c event invId data
                (min (c.timeout.getD eff) (eff - (now - start))) now).errors, true,
             (executeChain env c event invId data
                (min (c.timeout.getD eff) (eff - (now - start))) now).now⟩
          else
            ⟨(executeChain env c event invId data
                (min (c.timeout.getD eff) (eff - (now - start))) now).responses ++
              (dispatchGo env rest event invId data start eff
                (executeChain env c event invId data
                  (min (c.timeout.getD eff) (eff - (now - start))) now).now).responses,
             (executeChain env c event invId data
                (min (c.timeout.getD eff) (eff - (now - start))) now).errors ++
              (dispatchGo env rest event invId data start eff
                (executeChain env c event invId data
                  (min (c.timeout.getD eff) (eff - (now - start))) now).now).errors,
             (dispatchGo env rest event invId data start eff
                (executeChain env c event invId data
                  (min (c.timeout.getD eff) (eff - (now - start))) now).now).timedOut,
             (dispatchGo env rest event invId data start eff
                (executeChain env c event invId data
                  (min (c.timeout.getD eff) (eff - (now - start))) now).now).now⟩
        | .listener l =>
          match executeListener env l event invId data
              (min (l.timeout.getD eff) (eff - (now - start))) now with
          | (.ok r, dt) =>
            ⟨r :: (dispatchGo env rest event invId data start eff (now + dt)).responses,
             errorsOf r ++ (dispatchGo env rest event invId data start eff (now + dt)).errors,
             (dispatchGo env rest event invId data start eff (now + dt)).timedOut,
             (dispatchGo env rest event invId data start eff (now + dt)).now⟩
          | (.error msg, dt) =>
            ⟨synthResponse l ⟨l.name, "execution_error", msg, none⟩ ::
                (dispatchGo env rest event invId data start eff (now + dt)).responses,
             ⟨l.name, "execution_error", msg, none⟩ ::
                (dispatchGo env rest event invId data start eff (now + dt)).errors,
             (dispatchGo env rest event invId data start eff (now + dt)).timedOut,
             (dispatchGo env rest event invId data start eff (now + dt)).now⟩ := rfl

/-- A chain run whose `timedOut` flag is set stopped on its local clock,
which can only happen when every executed member passed: a member failure
breaks the loop with `timedOut = false` first. -/
theorem chain_timedOut_all_pass (env : ExecEnv) (members : List ListenerConfig) :
    ∀ (event invId : String) (data : Value) (chainStart timeout : Nat)
      (chainResults : List ListenerResponse) (now : Nat),
      (executeChainGo env members event invId data chainStart timeout chainResults now).timedOut = true →
      ∀ r ∈ (executeChainGo env members event invId data chainStart timeout chainResults now).responses,
        ¬(r.status = .error ∨ r.status = .timeout) := by
  induction members with
  | nil =>
    intro event invId data cs t cr now hto r hr
    rw [executeChainGo_nil] at hr
    simp at hr
  | cons m rest ih =>
    intro event invId data cs t cr now htrue r hr
    by_cases hto : now - cs ≥ t
    · rw [executeChainGo_cons_to env m rest event invId data cs t cr now hto] at hr
      simp at hr
    · rcases hres : executeListener env m event invId (enrichWithChainResults data cr)
          (min (m.timeout.getD t) (t - (now - cs))) now with ⟨res, dt⟩
      cases res with
      | ok r0 =>
        by_cases hs : r0.status = .error ∨ r0.status = .timeout
        · rw [executeChainGo_cons_fail env m rest event invId data cs t cr now hto r0 dt hres hs] at htrue
          simp at htrue
        · rw [executeChainGo_cons_pass env m rest event invId data cs t cr now hto r0 dt hres hs] at htrue hr
          simp only [List.mem_cons] at hr
          rcases hr with rfl | hr
          · exact hs
          · exact ih event invId data cs t (cr ++ [r0]) (now + dt) htrue r hr
      | error msg =>
        rw [executeChainGo_cons_threw env m rest event invId data cs t cr now hto msg dt hres] at htrue
        simp at htrue

/-- C5: in a chain run, a member response with status `error` or `timeout`
is always the final response: the run halts immediately after the failing
member (a throw contributes its synthetic `error` response), so the
response count equals the failing member's 1-based index. -/
theorem c5_chain_fail_fast (env : ExecEnv) (members : List ListenerConfig) :
    ∀ (event invId : String) (data : Value) (chainStart timeout : Nat)
      (chainResults : List ListenerResponse) (now k : Nat) (r : ListenerResponse),
      (executeChainGo env members event invId data chainStart timeout chainResults now).responses.get? k = some r →
      (r.status = .error ∨ r.status = .timeout) →
      (executeChainGo env members event invId data chainStart timeout chainResults now).responses.length = k + 1 := by
  induction members with
  | nil =>
    intro event invId data cs t cr now k r hk hfail
    rw [executeChainGo_nil] at hk
    simp at hk
  | cons m rest ih =>
    intro event invId data cs t cr now k r hk hfail
    by_cases hto : now - cs ≥ t
    · rw [executeChainGo_cons_to env m rest event invId data cs t cr now hto] at hk
      simp at hk
    · rcases hres : executeListener env m event invId (enrichWithChainResults data cr)
          (min (m.timeout.getD t) (t - (now - cs))) now with ⟨res, dt⟩
      cases res with
      | ok r0 =>
        by_cases hs : r0.status = .error ∨ r0.status = .timeout
        · rw [executeChainGo_cons_fail env m rest event invId data cs t cr now hto r0 dt hres hs] at hk ⊢
          cases k with
          | zero => rfl
          | succ j => simp [List.get?] at hk
        · rw [executeChainGo_cons_pass env m rest event invId data cs t cr now hto r0 dt hres hs] at hk ⊢
          cases k with
          | zero =>
            simp only [List.get?] at hk
            obtain rfl : r0 = r := by injection hk
            exact absurd hfail hs
          | succ j =>
            simp only [List.get?] at hk
            simp only [List.length_cons]
            rw [ih event invId data cs t (cr ++ [r0]) (now + dt) j r hk hfail]
      | error msg =>
        rw [executeChainGo_cons_threw env m rest event invId data cs t cr now hto msg dt hres] at hk ⊢
        cases k with
        | zero => rfl
        | succ j => simp [List.get?] at hk

/-- C5 witness: a three-member chain whose second member fails produces
exactly two responses. -/
theorem c5_chain_fail_fast_witness :
    (executeChainGo c5env c5members "ev" "id" (.obj []) 0 5000 [] 0).responses.length = 2 :=
  c5_chain_fail_fast c5env c5members "ev" "id" (.obj []) 0 5000 [] 0 1 c5resp rfl (Or.inl rfl)


/-- C1: error isolation.  (1) An unknown listener type throws, like every
executor exception, into the dispatcher's catch; (2) a thrown exception is
captured as a synthetic `error` response plus an `execution_error` record
and the remaining siblings are dispatched exactly as a fresh run from the
advanced clock; (3) an `error`/`timeout` response is captured together with
its error record, siblings again unaffected; (4) a chain stops with
`timedOut = true` only when every executed member passed; (5) hence a chain
containing a failing member returns `timedOut = false` and the remaining
siblings are dispatched exactly as a fresh run.  Whether the continuation
issues further entries is governed solely by the global elapsed-time checks
inside it. -/
theorem c1_error_isolation :
    (∀ (env : ExecEnv) (l : ListenerConfig) (event invId : String) (d : Value) (t now : Nat),
      ¬(l.type = "shell" ∨ l.type = "template" ∨ l.type = "mcp") →
      executeListener env l event invId d t now =
        (.error ("Unknown listener type: " ++ l.type), 0)) ∧
    (∀ (env : ExecEnv) (l : ListenerConfig) (rest : List EventEntry)
      (event invId : String) (data : Value) (start eff now : Nat) (msg : String) (dt : Nat),
      ¬(now - start ≥ eff) →
      executeListener env l event invId data
        (min (l.timeout.getD eff) (eff - (now - start))) now = (.error msg, dt) →
      dispatchGo env (.listener l :: rest) event invId data start eff now =
        ⟨synthResponse l ⟨l.name, "execution_error", msg, none⟩ ::
            (dispatchGo env rest event invId data start eff (now + dt)).responses,
         ⟨l.name, "execution_error", msg, none⟩ ::
            (dispatchGo env rest event invId data start eff (now + dt)).errors,
         (dispatchGo env rest event invId data start eff (now + dt)).timedOut,
         (dispatchGo env rest event invId data start eff (now + dt)).now⟩) ∧
    (∀ (env : ExecEnv) (l : ListenerConfig) (rest : List EventEntry)
      (event invId : String) (data : Value) (start eff now : Nat) (r : ListenerResponse) (dt : Nat),
      ¬(now - start ≥ eff) →
      executeListener env l event invId data
        (min (l.timeout.getD eff) (eff - (now - start))) now = (.ok r, dt) →
      (r.status = .error ∨ r.status = .timeout) →
      dispatchGo env (.listener l :: rest) event invId data start eff now =
        ⟨r :: (dispatchGo env rest event invId data start eff (now + dt)).responses,
         errorsOf r ++ (dispatchGo env rest event invId data start eff (now + dt)).errors,
         (dispatchGo env rest event invId data start eff (now + dt)).timedOut,
         (dispatchGo env rest event invId data start eff (now + dt)).now⟩) ∧
    (∀ (env : ExecEnv) (members : List ListenerConfig) (event invId : String)
      (data : Value) (chainStart timeout : Nat) (chainResults : List ListenerResponse) (now : Nat),
      (executeChainGo env members event invId data chainStart timeout chainResults now).timedOut = true →
      ∀ r ∈ (executeChainGo env members event invId data chainStart timeout chainResults now).responses,
        ¬(r.status = .error ∨ r.status = .timeout)) ∧
    (∀ (env : ExecEnv) (c : ChainConfig) (rest : List EventEntry)
      (event invId : String) (data : Value) (start eff now : Nat),
      ¬(now - start ≥ eff) →
      (∃ r ∈ (executeChain env c event invId data
          (min (c.timeout.getD eff) (eff - (now - start))) now).responses,
        r.status = .error ∨ r.status = .timeout) →
      dispatchGo env (.chain c :: rest) event invId data start eff now =
        ⟨(executeChain env c event invId data
            (min (c.timeout.getD eff) (eff - (now - start))) now).responses ++
          (dispatchGo env rest event invId data start eff
            (executeChain env c event invId data
              (min (c.timeout.getD eff) (eff - (now - start))) now).now).responses,
         (executeChain env c event invId data
            (min (c.timeout.getD eff) (eff - (now - start))) now).errors ++
          (dispatchGo env rest event invId data start eff
            (executeChain env c event invId data
              (min (c.timeout.getD eff) (eff - (now - start))) now).now).errors,
         (dispatchGo env rest event invId data start eff
            (executeChain env c event invId data
              (min (c.timeout.getD eff) (eff - (now - start))) now).now).timedOut,
         (dispatchGo env rest event invId data start eff
            (executeChain env c event invId data
              (min (c.timeout.getD eff) (eff - (now - start))) now).now).now⟩) := by
  refine ⟨?_, ?_, ?_, ?_, ?_⟩
  · intro env l event invId d t now h
    rw [executeListener, if_neg h]
  · intro env l rest event invId data start eff now msg dt h hres
    rw [dispatchGo_cons_eq, if_neg h]
    dsimp only
    rw [hres]
  · intro env l rest event invId data start eff now r dt h hres _hs
    rw [dispatchGo_cons_eq, if_neg h]
    dsimp only
    rw [hres]
  · exact fun env members => chain_timedOut_all_pass env members
  · intro env c rest event invId data start eff now h hex
    have hnotto : ¬((executeChain env c event invId data
        (min (c.timeout.getD eff) (eff - (now - start))) now).timedOut = true) := by
      intro htoTrue
      obtain ⟨r, hr, hfail⟩ := hex
      exact (chain_timedOut_all_pass env c.chain event invId data now
        (min (c.timeout.getD eff) (eff - (now - start))) [] now htoTrue r hr) hfail
    rw [dispatchGo_cons_eq, if_neg h]
    dsimp only
    rw [if_neg hnotto]

/-- C1 witness: a listener that fails with an `error` status is captured as
a response + error record and the following sibling is dispatched as a
fresh continuation run. -/
theorem c1_error_isolation_witness :
    dispatchGo c1env (.listener (shellL "f" 1) :: [.listener (shellL "z" 2)])
        "ev" "id" (.obj []) 0 5000 0 =
      ⟨c1resp :: (dispatchGo c1env [.listener (shellL "z" 2)] "ev" "id" (.obj []) 0 5000 1).responses,
       errorsOf c1resp ++ (dispatchGo c1env [.listener (shellL "z" 2)] "ev" "id" (.obj []) 0 5000 1).errors,
       (dispatchGo c1env [.listener (shellL "z" 2)] "ev" "id" (.obj []) 0 5000 1).timedOut,
       (dispatchGo c1env [.listener (shellL "z" 2)] "ev" "id" (.obj []) 0 5000 1).now⟩ :=
  c1_error_isolation.2.2.1 c1env (shellL "f" 1) [.listener (shellL "z" 2)]
    "ev" "id" (.obj []) 0 5000 0 c1resp 1 (by decide) rfl (Or.inl rfl)


/-! ## Ordering lemmas for the matched-entry sort and the dispatch loop -/

theorem executeListener_ok_shape {env : ExecEnv} {l : ListenerConfig}
    {event invId : String} {data : Value} {t now : Nat} {r : ListenerResponse} {dt : Nat}
    (h : executeListener env l event invId data t now = (.ok r, dt)) :
    r.name = l.name ∧ r.priority = l.priority ∧ r.listener_id = l.name ∧ r.type = l.type := by
  rw [executeListener] at h
  by_cases hknown : l.type = "shell" ∨ l.type = "template" ∨ l.type = "mcp"
  · rw [if_pos hknown] at h
    rcases hrun : env.run l event invId data t now with ⟨o, d0⟩
    rw [hrun] at h
    cases o with
    | ok core =>
      simp only [Prod.mk.injEq, Except.ok.injEq] at h
      obtain ⟨rfl, -⟩ := h
      exact ⟨rfl, rfl, rfl, rfl⟩
    | threw msg => simp at h
  · rw [if_neg hknown] at h
    simp at h

theorem sortedness_insertByPriority {x : EventEntry} {l : List EventEntry}
    (hl : l.Pairwise (fun a b => entryPriority a ≤ entryPriority b)) :
    (insertByPriority x l).Pairwise (fun a b => entryPriority a ≤ entryPriority b) := by
  induction l with
  | nil => simp [insertByPriority]
  | cons y ys ih =>
    rw [insertByPriority]
    rw [List.pairwise_cons] at hl
    obtain ⟨hy, hys⟩ := hl
    split
    · rw [List.pairwise_cons]
      refine ⟨?_, ih hys⟩
      intro z hz
      rw [mem_insertByPriority] at hz
      rcases hz with rfl | hz
      · omega
      · exact hy z hz
    · rw [List.pairwise_cons]
      refine ⟨?_, by rw [List.pairwise_cons]; exact ⟨hy, hys⟩⟩
      intro z hz
      rw [List.mem_cons] at hz
      rcases hz with rfl | hz
      · omega
      · have := hy z hz
        omega

theorem sortByPriority_sorted (l : List EventEntry) :
    (sortByPriority l).Pairwise (fun a b => entryPriority a ≤ entryPriority b) := by
  induction l with
  | nil => simp [sortByPriority]
  | cons x xs ih =>
    rw [sortByPriority]
    exact sortedness_insertByPriority ih

theorem filter_insertByPriority_eqclass {x : EventEntry} {l : List EventEntry} {p : Int}
    (hl : l.Pairwise (fun a b => entryPriority a ≤ entryPriority b)) :
    (insertByPriority x l).filter (fun e => decide (entryPriority e = p)) =
      if entryPriority x = p then
        x :: l.filter (fun e => decide (entryPriority e = p))
      else l.filter (fun e => decide (entryPriority e = p)) := by
  induction l with
  | nil =>
    rw [insertByPriority]
    by_cases hxp : entryPriority x = p
    · simp [List.filter_cons, hxp]
    · simp [List.filter_cons, hxp]
  | cons y ys ih =>
    rw [List.pairwise_cons] at hl
    obtain ⟨hy, hys⟩ := hl
    rw [insertByPriority]
    by_cases hlt : entryPriority y < entryPriority x
    · rw [if_pos hlt]
      by_cases hyp : entryPriority y = p
      · have hxp : ¬ entryPriority x = p := by omega
        rw [List.filter_cons, List.filter_cons]
        simp only [hyp, decide_True, if_true]
        rw [ih hys]
        simp [hxp]
      · rw [List.filter_cons, List.filter_cons]
        simp only [hyp, decide_False, Bool.false_eq_true, if_false]
        rw [ih hys]
    · rw [if_neg hlt, List.filter_cons]
      by_cases hxp : entryPriority x = p
      · simp [hxp]
      · simp [hxp]

/-- Stability of the priority sort: each priority class keeps its
declaration order. -/
theorem sortByPriority_stable (l : List EventEntry) (p : Int) :
    (sortByPriority l).filter (fun e => decide (entryPriority e = p)) =
      l.filter (fun e => decide (entryPriority e = p)) := by
  induction l with
  | nil => rfl
  | cons x xs ih =>
    rw [sortByPriority, filter_insertByPriority_eqclass (sortByPriority_sorted xs),
      List.filter_cons]
    by_cases hxp : entryPriority x = p
    · simp [hxp, ih]
    · simp [hxp, ih]

theorem foldl_collect_mono (event : String) (data : Option Value)
    (L : List (String × List EventEntry)) :
    ∀ (acc : List EventEntry) (x : EventEntry), x ∈ acc →
      x ∈ L.foldl (fun acc pe =>
        if matchesEvent pe.1 event then acc ++ pe.2.filter (entryPasses data) else acc) acc := by
  induction L with
  | nil =>
    intro acc x hx
    simpa using hx
  | cons pe rest ih =>
    intro acc x hx
    rw [List.foldl_cons]
    apply ih
    split
    · exact List.mem_append.mpr (Or.inl hx)
    · exact hx

theorem mem_collectEntries_of {event : String} {data : Option Value}
    {config : AgentHooksConfig} {pat : String} {L : List EventEntry} {e : EventEntry}
    (hreg : (pat, L) ∈ config.events) (hin : e ∈ L)
    (hm : matchesEvent pat event = true) (hp : entryPasses data e = true) :
    e ∈ collectEntries event data config := by
  rw [collectEntries]
  suffices hgen : ∀ (Lc : List (String × List EventEntry)) (acc : List EventEntry),
      (pat, L) ∈ Lc →
      e ∈ Lc.foldl (fun acc pe =>
        if matchesEvent pe.1 event then acc ++ pe.2.filter (entryPasses data) else acc) acc by
    exact hgen config.events [] hreg
  intro Lc
  induction Lc with
  | nil =>
    intro acc h
    simp at h
  | cons q rest ih =>
    intro acc hq
    rw [List.foldl_cons]
    rcases List.mem_cons.mp hq with heq | hmem
    · rw [← heq]
      rw [if_pos hm]
      exact foldl_collect_mono event data rest _ e
        (List.mem_append.mpr (Or.inr (List.mem_filter.mpr ⟨hin, hp⟩)))
    · exact ih _ hmem

/-- When every matched entry is a plain listener and the loop did not time
out, the responses correspond one-to-one, in order, to the entries: each
response carries its entry's name and priority. -/
theorem dispatchGo_pointwise (env : ExecEnv) (entries : List EventEntry) :
    ∀ (event invId : String) (data : Value) (start eff now : Nat),
      (∀ e ∈ entries, isChainConfig e = false) →
      (dispatchGo env entries event invId data start eff now).timedOut = false →
      ∀ k, ((dispatchGo env entries event invId data start eff now).responses.get? k).map
            (fun r => (r.name, r.priority)) =
          (entries.get? k).map (fun e => (entryName e, entryPriority e)) := by
  induction entries with
  | nil =>
    intro event invId data start eff now _ _ k
    rw [dispatchGo_nil]
    simp
  | cons e rest ih =>
    intro event invId data start eff now hall hto k
    cases e with
    | chain c =>
      have hc := hall _ (List.mem_cons_self _ _)
      simp [isChainConfig] at hc
    | listener l =>
      by_cases hcheck : now - start ≥ eff
      · rw [dispatchGo_cons_eq, if_pos hcheck] at hto
        simp at hto
      · rcases hres : executeListener env l event invId data
            (min (l.timeout.getD eff) (eff - (now - start))) now with ⟨o, dt⟩
        have hrest : ∀ x ∈ rest, isChainConfig x = false :=
          fun x hx => hall x (List.mem_cons_of_mem _ hx)
        cases o with
        | ok r =>
          rw [dispatchGo_cons_eq, if_neg hcheck] at hto ⊢
          dsimp only at hto ⊢
          rw [hres] at hto ⊢
          cases k with
          | zero =>
            obtain ⟨hn, hp, -, -⟩ := executeListener_ok_shape hres
            simp [List.get?, hn, hp, entryName, entryPriority]
          | succ j =>
            simp only [List.get?]
            exact ih event invId data start eff (now + dt) hrest hto j
        | error msg =>
          rw [dispatchGo_cons_eq, if_neg hcheck] at hto ⊢
          dsimp only at hto ⊢
          rw [hres] at hto ⊢
          cases k with
          | zero =>
            simp [List.get?, synthResponse, entryName, entryPriority]
          | succ j =>
            simp only [List.get?]
            exact ih event invId data start eff (now + dt) hrest hto j

theorem dispatch_ok_parts {env : ExecEnv} {event : String} {data : Option Value}
    {timeout : Option Nat} {config : AgentHooksConfig} {uuid : String} {startTime : Nat}
    {res : EmitResponse}
    (hok : dispatch env event data timeout config uuid startTime = .ok res)
    (hne : findEntries event data config ≠ []) :
    res.responses = (dispatchGo env (findEntries event data config) event
        (mkInvocationId uuid) (data.getD (.obj [])) startTime
        (timeout.getD (config.default_timeout.getD DEFAULT_TIMEOUT_MS)) startTime).responses ∧
    res.timed_out = (dispatchGo env (findEntries event data config) event
        (mkInvocationId uuid) (data.getD (.obj [])) startTime
        (timeout.getD (config.default_timeout.getD DEFAULT_TIMEOUT_MS)) startTime).timedOut := by
  have hres : dispatchRun env event data config (mkInvocationId uuid) startTime
      (timeout.getD (config.default_timeout.getD DEFAULT_TIMEOUT_MS)) = res := by
    cases data with
    | none =>
      rw [dispatch] at hok
      exact Except.ok.inj hok
    | some d =>
      rw [dispatch] at hok
      have hok2 : (if payloadSizeBytes d > MAX_PAYLOAD_SIZE_BYTES then
          (Except.error (payloadErrorMessage (payloadSizeBytes d)) : Except String EmitResponse)
        else .ok (dispatchRun env event (some d) config (mkInvocationId uuid) startTime
          (timeout.getD (config.default_timeout.getD DEFAULT_TIMEOUT_MS)))) = .ok res := hok
      split at hok2
      · exact absurd hok2 (by simp)
      · exact Except.ok.inj hok2
  rw [← hres, dispatchRun]
  have hempty : (findEntries event data config).isEmpty = false := by
    cases hfe : findEntries event data config with
    | nil => exact absurd hfe hne
    | cons a l => rfl
  rw [if_neg (by simp [hempty])]
  exact ⟨rfl, rfl⟩

theorem get?_pairwise_le {l : List EventEntry}
    (hs : l.Pairwise (fun a b => entryPriority a ≤ entryPriority b))
    {i j : Nat} {a b : EventEntry} (hi : l.get? i = some a) (hj : l.get? j = some b)
    (hij : i < j) : entryPriority a ≤ entryPriority b := by
  obtain ⟨hi1, hi2⟩ := List.get?_eq_some.mp hi
  obtain ⟨hj1, hj2⟩ := List.get?_eq_some.mp hj
  rw [List.pairwise_iff_get] at hs
  have := hs ⟨i, hi1⟩ ⟨j, hj1⟩ hij
  rw [hi2, hj2] at this
  exact this

theorem mem_get?_of_mem {l : List EventEntry} {a : EventEntry} (h : a ∈ l) :
    ∃ n : Nat, l.get? n = some a := by
  obtain ⟨n, hn⟩ := List.mem_iff_get.mp h
  exact ⟨n.1, by rw [List.get?_eq_get n.2, hn]⟩

/-- C2: the matched entries are the stable ascending-priority sort of the
declaration-ordered filtered list, and for two condition-free listener
entries registered for the event with priorities `p1 < p2`, in a dispatch
that did not time out the response carrying the first entry's name and
priority appears strictly before the one carrying the second entry's. -/
theorem c2_priority_order
    (env : ExecEnv) (event : String) (data : Option Value) (timeout : Option Nat)
    (config : AgentHooksConfig) (uuid : String) (startTime : Nat) (res : EmitResponse)
    (pat1 pat2 : String) (L1 L2 : List EventEntry) (e1 e2 : EventEntry) (p1 p2 : Int)
    (hok : dispatch env event data timeout config uuid startTime = .ok res)
    (hnoto : res.timed_out = false)
    (hall : ∀ e ∈ findEntries event data config, isChainConfig e = false)
    (hreg1 : (pat1, L1) ∈ config.events) (hin1 : e1 ∈ L1)
    (hm1 : matchesEvent pat1 event = true) (hw1 : entryWhen e1 = none)
    (hreg2 : (pat2, L2) ∈ config.events) (hin2 : e2 ∈ L2)
    (hm2 : matchesEvent pat2 event = true) (hw2 : entryWhen e2 = none)
    (hp1 : entryPriority e1 = p1) (hp2 : entryPriority e2 = p2) (hlt : p1 < p2) :
    (findEntries event data config).Pairwise (fun a b => entryPriority a ≤ entryPriority b) ∧
    (∀ p : Int, (findEntries event data config).filter (fun e => decide (entryPriority e = p)) =
      (collectEntries event data config).filter (fun e => decide (entryPriority e = p))) ∧
    ∃ i j : Nat, i < j ∧
      (res.responses.get? i).map (fun r => (r.name, r.priority)) = some (entryName e1, p1) ∧
      (res.responses.get? j).map (fun r => (r.name, r.priority)) = some (entryName e2, p2) := by
  have hfe : findEntries event data config = sortByPriority (collectEntries event data config) := rfl
  have hsort : (findEntries event data config).Pairwise
      (fun a b => entryPriority a ≤ entryPriority b) := by
    rw [hfe]
    exact sortByPriority_sorted _
  refine ⟨hsort, fun p => by rw [hfe]; exact sortByPriority_stable _ p, ?_⟩
  have hpass1 : entryPasses data e1 = true := by rw [entryPasses, hw1]
  have hpass2 : entryPasses data e2 = true := by rw [entryPasses, hw2]
  have he1 : e1 ∈ findEntries event data config := by
    rw [hfe, mem_sortByPriority]
    exact mem_collectEntries_of hreg1 hin1 hm1 hpass1
  have he2 : e2 ∈ findEntries event data config := by
    rw [hfe, mem_sortByPriority]
    exact mem_collectEntries_of hreg2 hin2 hm2 hpass2
  obtain ⟨i, hi⟩ := mem_get?_of_mem he1
  obtain ⟨j, hj⟩ := mem_get?_of_mem he2
  have hne : findEntries event data config ≠ [] := by
    intro h
    rw [h] at he1
    simp at he1
  obtain ⟨hresps, hto⟩ := dispatch_ok_parts hok hne
  have hpoint := dispatchGo_pointwise env (findEntries event data config) event
    (mkInvocationId uuid) (data.getD (.obj [])) startTime
    (timeout.getD (config.default_timeout.getD DEFAULT_TIMEOUT_MS)) startTime hall
    (by rw [← hto]; exact hnoto)
  have hij : i < j := by
    rcases Nat.lt_trichotomy i j with h | h | h
    · exact h
    · exfalso
      subst h
      rw [hi] at hj
      have heq12 : e1 = e2 := by injection hj
      rw [heq12, hp2] at hp1
      omega
    · exfalso
      have := get?_pairwise_le hsort hj hi h
      rw [hp1, hp2] at this
      omega
  refine ⟨i, j, hij, ?_, ?_⟩
  · rw [hresps, hpoint i, hi]
    simp [hp1]
  · rw [hresps, hpoint j, hj]
    simp [hp2]

/-- C2 witness: listeners `b` (priority 2) and `a` (priority 1) declared in
that order; `a`'s response precedes `b`'s. -/
theorem c2_priority_order_witness :
    (findEntries "ev" none c2config).Pairwise (fun a b => entryPriority a ≤ entryPriority b) ∧
    (∀ p : Int, (findEntries "ev" none c2config).filter (fun e => decide (entryPriority e = p)) =
      (collectEntries "ev" none c2config).filter (fun e => decide (entryPriority e = p))) ∧
    ∃ i j : Nat, i < j ∧
      (c2res.responses.get? i).map (fun r => (r.name, r.priority)) =
        some (entryName (.listener (shellL "a" 1)), 1) ∧
      (c2res.responses.get? j).map (fun r => (r.name, r.priority)) =
        some (entryName (.listener (shellL "b" 2)), 2) :=
  c2_priority_order c2env "ev" none none c2config "u" 0 c2res
    "ev" "ev" [.listener (shellL "b" 2), .listener (shellL "a" 1)]
    [.listener (shellL "b" 2), .listener (shellL "a" 1)]
    (.listener (shellL "a" 1)) (.listener (shellL "b" 2)) 1 2
    rfl rfl (by decide) (by decide) (by decide) (by decide) (by decide)
    (by decide) (by decide) (by decide) (by decide) rfl rfl (by decide)


/-! ## Payload-limit lemmas -/

theorem escape_x (n : Nat) :
    (List.replicate n 'x').flatMap jsonEscapeChar = List.replicate n 'x' := by
  induction n with
  | zero => rfl
  | succ m ih =>
    rw [List.replicate_succ, List.flatMap_cons, ih]
    rfl

theorem utf8_sum_replicate (n : Nat) :
    (List.map charUtf8Size (List.replicate n 'x')).sum = n := by
  induction n with
  | zero => rfl
  | succ m ih =>
    rw [List.replicate_succ, List.map_cons, List.sum_cons, ih]
    have hx : charUtf8Size 'x' = 1 := rfl
    omega

/-- The serialized byte size of `{"k": "xx…x"}` with `n` plain `x`s is
`n + 8`. -/
theorem payload_xstring (n : Nat) :
    payloadSizeBytes (.obj [("k", .str ⟨List.replicate n 'x'⟩)]) = n + 8 := by
  have hq : jsonQuote ⟨List.replicate n 'x'⟩ = ⟨'"' :: (List.replicate n 'x' ++ ['"'])⟩ := by
    rw [jsonQuote]
    have hd : (String.mk (List.replicate n 'x')).data = List.replicate n 'x' := rfl
    rw [hd, escape_x]
  have hjs : jsonStringify (.obj [("k", .str ⟨List.replicate n 'x'⟩)]) =
      some ("\x7b" ++ (jsonQuote "k" ++ ":" ++ jsonQuote ⟨List.replicate n 'x'⟩) ++ "\x7d") := rfl
  rw [payloadSizeBytes, hjs]
  rw [hq]
  rw [utf8Length]
  have hdata : ("\x7b" ++ (jsonQuote "k" ++ ":" ++ String.mk ('"' :: (List.replicate n 'x' ++ ['"']))) ++ "\x7d").data
      = '{' :: '"' :: 'k' :: '"' :: ':' :: '"' :: (List.replicate n 'x' ++ ['"', '}']) := by
    show ("\x7b".data ++ (("\"k\"".data ++ ":".data ++ ('"' :: (List.replicate n 'x' ++ ['"'])))) ++ "\x7d".data) = _
    simp
  simp only [Option.getD_some]
  rw [hdata]
  simp only [List.map_cons, List.sum_cons, List.map_append, List.sum_append,
    List.map_nil, List.sum_nil]
  rw [utf8_sum_replicate]
  have h1 : charUtf8Size '{' = 1 := rfl
  have h2 : charUtf8Size '"' = 1 := rfl
  have h3 : charUtf8Size 'k' = 1 := rfl
  have h4 : charUtf8Size ':' = 1 := rfl
  have h5 : charUtf8Size '}' = 1 := rfl
  rw [h1, h2, h3, h4, h5]
  omega

theorem dispatch_payload_reject {env : ExecEnv} {event : String} {d : Value}
    {timeout : Option Nat} {config : AgentHooksConfig} {uuid : String} {now : Nat}
    (h : payloadSizeBytes d > MAX_PAYLOAD_SIZE_BYTES) :
    dispatch env event (some d) timeout config uuid now =
      .error (payloadErrorMessage (payloadSizeBytes d)) := by
  rw [dispatch]
  exact if_pos h

theorem dispatch_payload_accept {env : ExecEnv} {event : String} {d : Value}
    {timeout : Option Nat} {config : AgentHooksConfig} {uuid : String} {now : Nat}
    (h : ¬ payloadSizeBytes d > MAX_PAYLOAD_SIZE_BYTES) :
    dispatch env event (some d) timeout config uuid now =
      .ok (dispatchRun env event (some d) config (mkInvocationId uuid) now
        (timeout.getD (config.default_timeout.getD DEFAULT_TIMEOUT_MS))) := by
  rw [dispatch]
  exact if_neg h

theorem dispatchAsync_payload_reject {env : ExecEnv} {event : String} {d : Value}
    {timeout : Option Nat} {config : AgentHooksConfig} {u₁ u₂ : String} {now : Nat}
    (h : payloadSizeBytes d > MAX_PAYLOAD_SIZE_BYTES) :
    dispatchAsync env event (some d) timeout config u₁ u₂ now =
      .error (payloadErrorMessage (payloadSizeBytes d)) := by
  rw [dispatchAsync]
  exact if_pos h

theorem dispatchAsync_payload_accept {env : ExecEnv} {event : String} {d : Value}
    {timeout : Option Nat} {config : AgentHooksConfig} {u₁ u₂ : String} {now : Nat}
    (h : ¬ payloadSizeBytes d > MAX_PAYLOAD_SIZE_BYTES) :
    dispatchAsync env event (some d) timeout config u₁ u₂ now =
      .ok (asyncRun env event (some d) timeout config (mkInvocationId u₁) u₂ now) := by
  rw [dispatchAsync]
  exact if_neg h

/-- C3: a payload of exactly 10240 serialized bytes is accepted by both
`dispatch` and `dispatchAsync`; one of exactly 11264 bytes is rejected by
both with the payload-too-large error, and the rejection is identical for
every configuration (it happens before any matching, leaving no partial
result). -/
theorem c3_payload_limit (env : ExecEnv) (event : String) (d : Value)
    (timeout : Option Nat) (config : AgentHooksConfig) (u u₂ : String) (now : Nat) :
    (payloadSizeBytes d = 10240 →
      (∃ r, dispatch env event (some d) timeout config u now = .ok r) ∧
      (∃ a, dispatchAsync env event (some d) timeout config u u₂ now = .ok a)) ∧
    (payloadSizeBytes d = 11264 →
      dispatch env event (some d) timeout config u now =
        .error "Event payload exceeds 10KB limit (11KB)" ∧
      dispatchAsync env event (some d) timeout config u u₂ now =
        .error "Event payload exceeds 10KB limit (11KB)" ∧
      (∀ config₂ : AgentHooksConfig,
        dispatch env event (some d) timeout config₂ u now =
          .error "Event payload exceeds 10KB limit (11KB)")) := by
  constructor
  · intro h10
    have hle : ¬ payloadSizeBytes d > MAX_PAYLOAD_SIZE_BYTES := by
      rw [h10, MAX_PAYLOAD_SIZE_BYTES]
      omega
    exact ⟨⟨_, dispatch_payload_accept hle⟩, ⟨_, dispatchAsync_payload_accept hle⟩⟩
  · intro h11
    have hgt : payloadSizeBytes d > MAX_PAYLOAD_SIZE_BYTES := by
      rw [h11, MAX_PAYLOAD_SIZE_BYTES]
      omega
    have hmsg : payloadErrorMessage (payloadSizeBytes d) =
        "Event payload exceeds 10KB limit (11KB)" := by
      rw [h11]
      rfl
    refine ⟨by rw [dispatch_payload_reject hgt, hmsg],
            by rw [dispatchAsync_payload_reject hgt, hmsg], ?_⟩
    intro config₂
    rw [dispatch_payload_reject hgt, hmsg]

/-- C3 witness: `{"k": "x"*10232}` serializes to exactly 10240 bytes and is
accepted; `{"k": "x"*11256}` serializes to exactly 11264 bytes and is
rejected. -/
theorem c3_payload_limit_witness :
    (∃ r, dispatch c2env "ev" (some c3d10) none c10config "u" 0 = .ok r) ∧
    (∃ a, dispatchAsync c2env "ev" (some c3d10) none c10config "u" "w" 0 = .ok a) ∧
    dispatch c2env "ev" (some c3d11) none c10config "u" 0 =
      .error "Event payload exceeds 10KB limit (11KB)" := by
  have h10 : payloadSizeBytes c3d10 = 10240 := by
    rw [c3d10, payload_xstring]
  have h11 : payloadSizeBytes c3d11 = 11264 := by
    rw [c3d11, payload_xstring]
  have ha := c3_payload_limit c2env "ev" c3d10 none c10config "u" "w" 0
  have hb := c3_payload_limit c2env "ev" c3d11 none c10config "u" "w" 0
  exact ⟨(ha.1 h10).1, (ha.1 h10).2, (hb.2 h11).1⟩

/-! ## Invocation-id plumbing of `dispatchAsync` -/

theorem dispatch_ok_invocation {env : ExecEnv} {event : String} {data : Option Value}
    {timeout : Option Nat} {config : AgentHooksConfig} {uuid : String} {startTime : Nat}
    {res : EmitResponse}
    (hok : dispatch env event data timeout config uuid startTime = .ok res) :
    res.invocation_id = mkInvocationId uuid := by
  have hres : dispatchRun env event data config (mkInvocationId uuid) startTime
      (timeout.getD (config.default_timeout.getD DEFAULT_TIMEOUT_MS)) = res := by
    cases data with
    | none =>
      rw [dispatch] at hok
      exact Except.ok.inj hok
    | some d =>
      rw [dispatch] at hok
      have hok2 : (if payloadSizeBytes d > MAX_PAYLOAD_SIZE_BYTES then
          (Except.error (payloadErrorMessage (payloadSizeBytes d)) : Except String EmitResponse)
        else .ok (dispatchRun env event (some d) config (mkInvocationId uuid) startTime
          (timeout.getD (config.default_timeout.getD DEFAULT_TIMEOUT_MS)))) = .ok res := hok
      split at hok2
      · exact absurd hok2 (by simp)
      · exact Except.ok.inj hok2
  rw [← hres, dispatchRun]
  split
  · rfl
  · rfl

theorem dispatchAsync_ok_run {env : ExecEnv} {event : String} {data : Option Value}
    {timeout : Option Nat} {config : AgentHooksConfig} {u₁ u₂ : String} {now : Nat}
    {out : AsyncOutcome}
    (hok : dispatchAsync env event data timeout config u₁ u₂ now = .ok out) :
    asyncRun env event data timeout config (mkInvocationId u₁) u₂ now = out := by
  cases data with
  | none =>
    rw [dispatchAsync] at hok
    exact Except.ok.inj hok
  | some d =>
    rw [dispatchAsync] at hok
    have hok2 : (if payloadSizeBytes d > MAX_PAYLOAD_SIZE_BYTES then
        (Except.error (payloadErrorMessage (payloadSizeBytes d)) : Except String AsyncOutcome)
      else .ok (asyncRun env event (some d) timeout config (mkInvocationId u₁) u₂ now)) = .ok out := hok
    split at hok2
    · exact absurd hok2 (by simp)
    · exact Except.ok.inj hok2

theorem except_toOption_some {o : Except String EmitResponse} {b : EmitResponse}
    (h : o.toOption = some b) : o = .ok b := by
  cases o with
  | ok a =>
    simp [Except.toOption] at h
    rw [h]
  | error e => simp [Except.toOption] at h

/-- C6 counterexample: with this call's uuid `aaaa…` and the background
call's uuid `bbbb…`, the enqueue record carries `evt-aaaaaaaaaaaa` while
the background dispatch executes and logs under `evt-bbbbbbbbbbbb` — the
returned invocation id does not correlate the background execution,
refuting the claim that the background runs under the returned id. -/
theorem c6_counterexample :
    ((dispatchAsync c2env "ev" none none c6config "aaaaaaaaaaaaaaaa" "bbbbbbbbbbbbbbbb" 0).toOption.map
        (fun o => o.enq.invocation_id)) = some "evt-aaaaaaaaaaaa" ∧
    (((dispatchAsync c2env "ev" none none c6config "aaaaaaaaaaaaaaaa" "bbbbbbbbbbbbbbbb" 0).toOption.bind
        (fun o => o.background)).map (fun r => r.invocation_id)) = some "evt-bbbbbbbbbbbb" ∧
    ("evt-bbbbbbbbbbbb" : String) ≠ "evt-aaaaaaaaaaaa" :=
  ⟨rfl, rfl, by decide⟩

/-- C6 amended: the enqueue record's invocation id is freshly derived from
this call's own uuid, but the background dispatch derives its id from its
own fresh uuid; whenever the two derived ids differ (uuidv4 never repeats),
the background run's result record carries an id different from the one
returned to the caller. -/
theorem c6_amended (env : ExecEnv) (event : String) (data : Option Value)
    (timeout : Option Nat) (config : AgentHooksConfig) (u₁ u₂ : String) (now : Nat)
    (out : AsyncOutcome)
    (hok : dispatchAsync env event data timeout config u₁ u₂ now = .ok out) :
    out.enq.invocation_id = mkInvocationId u₁ ∧
    (∀ bg ∈ out.background, bg.invocation_id = mkInvocationId u₂) ∧
    (mkInvocationId u₁ ≠ mkInvocationId u₂ →
      ∀ bg ∈ out.background, bg.invocation_id ≠ out.enq.invocation_id) := by
  have hrun := dispatchAsync_ok_run hok
  have henq : out.enq.invocation_id = mkInvocationId u₁ := by
    rw [← hrun]
    rfl
  have hbg : ∀ bg ∈ out.background, bg.invocation_id = mkInvocationId u₂ := by
    intro bg hmem
    rw [← hrun, asyncRun] at hmem
    dsimp only at hmem
    split at hmem
    · have hsome : (dispatch env event data timeout config u₂ now).toOption = some bg := hmem
      exact dispatch_ok_invocation (except_toOption_some hsome)
    · exact absurd hmem (by simp)
  refine ⟨henq, hbg, ?_⟩
  intro hne bg hmem
  rw [hbg bg hmem, henq]
  exact fun hh => hne hh.symm

/-- C6 amended witness. -/
theorem c6_amended_witness :
    c6out.enq.invocation_id = mkInvocationId "aaaaaaaaaaaaaaaa" ∧
    (∀ bg ∈ c6out.background, bg.invocation_id = mkInvocationId "bbbbbbbbbbbbbbbb") ∧
    (mkInvocationId "aaaaaaaaaaaaaaaa" ≠ mkInvocationId "bbbbbbbbbbbbbbbb" →
      ∀ bg ∈ c6out.background, bg.invocation_id ≠ c6out.enq.invocation_id) :=
  c6_amended c2env "ev" none none c6config "aaaaaaaaaaaaaaaa" "bbbbbbbbbbbbbbbb" 0 c6out rfl

end AgentHooks
